import Mathlib

/-!
Verification of the hexahedron-mesh topology/numbering engine
(`fealpy/mesh/hexahedron_mesh.py`).

Conventions of the shallow embedding:
* node/cell/edge/face tables are `List (List ℕ)` (node indices) resp.
  `List (List ℤ)` (exact integer coordinates for the concrete test meshes,
  so every geometric statement is floating-point free);
* the entity-topology builder (edge/face derivation, adjacency and
  `edge_to_ipoint`) lives in base classes that are not part of the sampled
  sources; those definitions are modelled from the spec and carry a
  `Modelled from the spec:` doc comment;
* the numbering routines `face_to_ipoint`, `cell_to_ipoint`,
  `cell_to_ipoint0` and `number_of_global_ipoints` are translated line by
  line from `HexahedronMesh`.
-/

set_option maxRecDepth 100000

namespace Hex

/-- `getl l i` is NumPy-style integer indexing `l[i]` with default `0`. -/
def getl (l : List ℕ) (i : ℕ) : ℕ := l.getD i 0

/-- Insertion step of a stable sort on `(value, original index)` pairs. -/
def insertPair (x : ℕ × ℕ) : List (ℕ × ℕ) → List (ℕ × ℕ)
  | [] => [x]
  | y :: ys =>
    if x.1 < y.1 ∨ (x.1 = y.1 ∧ x.2 ≤ y.2) then x :: y :: ys
    else y :: insertPair x ys

/-- Stable insertion sort on `(value, original index)` pairs. -/
def sortPairs (l : List (ℕ × ℕ)) : List (ℕ × ℕ) := l.foldr insertPair []

/-- `np.argsort` (stable): positions of the elements in ascending order. -/
def argsort (l : List ℕ) : List ℕ :=
  (sortPairs (l.zip (List.range l.length))).map Prod.snd

/-- Sort a list of naturals ascending (the sorted-tuple key used to
de-duplicate entities). -/
def sortKey (l : List ℕ) : List ℕ :=
  (sortPairs (l.zip (List.range l.length))).map Prod.fst

/-- The 12 local edges of the reference hexahedron
(`HexahedronMeshDataStructure.localEdge`). -/
def localEdge : List (List ℕ) :=
  [[0, 1], [1, 2], [2, 3], [0, 3],
   [0, 4], [1, 5], [2, 6], [3, 7],
   [4, 5], [5, 6], [6, 7], [4, 7]]

/-- The 6 local faces of the reference hexahedron
(`HexahedronMeshDataStructure.localFace`). -/
def localFace : List (List ℕ) :=
  [[0, 3, 2, 1], [4, 5, 6, 7],
   [0, 4, 7, 3], [1, 2, 6, 5],
   [0, 1, 5, 4], [2, 3, 7, 6]]

/-- Local face-to-edge incidence
(`HexahedronMeshDataStructure.localFace2edge`). -/
def localFace2edge : List (List ℕ) :=
  [[3, 2, 1, 0], [8, 9, 10, 11],
   [4, 11, 7, 3], [1, 6, 9, 5],
   [0, 5, 8, 4], [2, 7, 10, 6]]

/-- The 12 edges of one cell, each as the ordered node pair
`cell[localEdge[j]]`. -/
def cellEdges (cell : List ℕ) : List (List ℕ) :=
  localEdge.map (fun e => e.map (getl cell))

/-- The 6 faces of one cell, each as the ordered node cycle
`cell[localFace[i]]`. -/
def cellFaces (cell : List ℕ) : List (List ℕ) :=
  localFace.map (fun f => f.map (getl cell))

/-- Modelled from the spec: the entity builder keys each local entity by the
sorted tuple of its node indices and inserts on first sight
("first-to-register wins"), so the canonical table is the concatenated
per-cell entity list de-duplicated by sorted key, keeping the first
occurrence in its registrant's local order. -/
def dedupByKey (ls : List (List ℕ)) : List (List ℕ) :=
  ls.foldl
    (fun acc x => if acc.any (fun y => sortKey y = sortKey x) then acc else acc ++ [x])
    []

/-- Index of the entity with the sorted key of `x` in the canonical table. -/
def indexByKey (tab : List (List ℕ)) (x : List ℕ) : ℕ :=
  tab.findIdx (fun y => sortKey y = sortKey x)

/-- Modelled from the spec: the canonical edge table derived from the
cell-to-node connectivity (first registrant's order). -/
def buildEdges (cells : List (List ℕ)) : List (List ℕ) :=
  dedupByKey (cells.flatMap cellEdges)

/-- Modelled from the spec: the canonical face table derived from the
cell-to-node connectivity (first registrant's order). -/
def buildFaces (cells : List (List ℕ)) : List (List ℕ) :=
  dedupByKey (cells.flatMap cellFaces)

/-- A mesh: node coordinates, cells, and the derived entity/adjacency
tables. -/
structure HexMesh where
  node : List (List ℤ)
  cell : List (List ℕ)
  edge : List (List ℕ)
  face : List (List ℕ)
  cell2edge : List (List ℕ)
  cell2face : List (List ℕ)
  face2edge : List (List ℕ)
deriving Repr, DecidableEq

/-- Modelled from the spec: `cell_to_edge` — for each cell the canonical
index of each of its 12 local edges. -/
def buildCell2edge (cells : List (List ℕ)) : List (List ℕ) :=
  let edges := buildEdges cells
  cells.map (fun c => (cellEdges c).map (indexByKey edges))

/-- Modelled from the spec: `cell_to_face` — for each cell the canonical
index of each of its 6 local faces. -/
def buildCell2face (cells : List (List ℕ)) : List (List ℕ) :=
  let faces := buildFaces cells
  cells.map (fun c => (cellFaces c).map (indexByKey faces))

/-- Modelled from the spec: the face registration stream — every
(cycle, cell, local slot) triple in cell order ("a single consistent pass
order per mesh"). -/
def faceTriples (cells : List (List ℕ)) : List (List ℕ × ℕ × ℕ) :=
  (List.range cells.length).flatMap (fun c =>
    (List.range 6).map (fun i => ((cellFaces (cells.getD c [])).getD i [], c, i)))

/-- Modelled from the spec: de-duplicate the registration stream by the
cycle's sorted key, keeping the first registrant and its provenance. -/
def dedupTriples (ls : List (List ℕ × ℕ × ℕ)) : List (List ℕ × ℕ × ℕ) :=
  ls.foldl
    (fun acc x => if acc.any (fun y => sortKey y.1 = sortKey x.1) then acc else acc ++ [x])
    []

/-- The canonical face table with the registrant of each face. -/
def buildFacesT (cells : List (List ℕ)) : List (List ℕ × ℕ × ℕ) :=
  dedupTriples (faceTriples cells)

/-- The canonical face table: the registrants' cycles. -/
def buildFacesOfT (cells : List (List ℕ)) : List (List ℕ) :=
  (buildFacesT cells).map (fun t => t.1)

/-- Modelled from the spec: `face_to_edge` — each canonical face's 4 edges,
obtained by applying `localFace2edge` in the registrant cell and mapping
through the canonical edge table. -/
def buildFace2edge (cells : List (List ℕ)) : List (List ℕ) :=
  let c2e := buildCell2edge cells
  (buildFacesT cells).map (fun t =>
    (localFace2edge.getD t.2.2 []).map (getl (c2e.getD t.2.1 [])))

/-- Modelled from the spec: assemble a mesh, deriving every entity and
adjacency table from the raw `(node, cell)` input. -/
def buildMesh (node : List (List ℤ)) (cells : List (List ℕ)) : HexMesh :=
  { node := node
    cell := cells
    edge := buildEdges cells
    face := buildFaces cells
    cell2edge := buildCell2edge cells
    cell2face := buildCell2face cells
    face2edge := buildFace2edge cells }

/-- `HexahedronMesh.number_of_global_ipoints`:
`NN + NE*(p-1) + NF*(p-1)**2 + NC*(p-1)**3` with Python integer
arithmetic, hence over `ℤ` (for `p = 0` the summands are negative). -/
def number_of_global_ipoints (m : HexMesh) (p : ℤ) : ℤ :=
  (m.node.length : ℤ) + (m.edge.length : ℤ) * (p - 1)
    + (m.face.length : ℤ) * (p - 1) ^ 2 + (m.cell.length : ℤ) * (p - 1) ^ 3

/-- Modelled from the spec: `edge_to_ipoint` — edge `e` owns the `p-1`
interior points `NN + e*(p-1) + k`; its row lists the first endpoint, the
interior points in the edge's own (canonical) direction, then the second
endpoint. -/
def edge_to_ipoint (m : HexMesh) (p : ℕ) : List (List ℕ) :=
  let NN := m.node.length
  (List.range m.edge.length).map (fun e =>
    let er := m.edge.getD e []
    [getl er 0] ++ (List.range (p - 1)).map (fun k => NN + e * (p - 1) + k) ++ [getl er 1])

/-- Write `vals` into `arr` at positions `pos` (NumPy fancy-index
assignment `arr[pos] = vals`). -/
def writeSeq (arr : Array ℕ) (pos vals : List ℕ) : Array ℕ :=
  (pos.zip vals).foldl (fun a pv => a.setD pv.1 pv.2) arr

/-- `dofidx` of `face_to_ipoint`: the ascending positions in the
`(p+1)^2` face grid (row-major index `a*(p+1)+b`) where local edge `i`
lies (`b=0`, `a=p`, `b=p`, `a=0`). -/
def faceDofidx (p i : ℕ) : List ℕ :=
  match i with
  | 0 => (List.range (p + 1)).map (fun a => a * (p + 1))
  | 1 => (List.range (p + 1)).map (fun b => p * (p + 1) + b)
  | 2 => (List.range (p + 1)).map (fun a => a * (p + 1) + p)
  | _ => (List.range (p + 1)).map (fun b => b)

/-- The local edge pattern `localEdge = [[0, 1], [1, 2], [3, 2], [0, 3]]`
of `face_to_ipoint`. -/
def localEdgeF : List (List ℕ) := [[0, 1], [1, 2], [3, 2], [0, 3]]

/-- The (possibly reversed) point sequence `face_to_ipoint` writes for
edge slot `i` of face `f`: the edge's own row, reversed exactly when the
face's local first endpoint differs from the edge's stored first
endpoint. -/
def faceRowEdgeSeq (m : HexMesh) (p f i : ℕ) : List ℕ :=
  let ge := getl (m.face2edge.getD f []) i
  let seq := (edge_to_ipoint m p).getD ge []
  if getl (m.face.getD f []) (getl (localEdgeF.getD i []) 0) = getl (m.edge.getD ge []) 0
  then seq else seq.reverse

/-- The face-grid array of face `f` after the first `k` edge-slot writes
of `face_to_ipoint`. -/
def faceRowAfterEdges (m : HexMesh) (p f k : ℕ) : Array ℕ :=
  (List.range k).foldl
    (fun arr i => writeSeq arr (faceDofidx p i) (faceRowEdgeSeq m p f i))
    (Array.mkArray ((p + 1) * (p + 1)) 0)

/-- The ascending positions of the `indof` mask of `face_to_ipoint`:
grid points with both coordinates strictly between `0` and `p`. -/
def faceInterior (p : ℕ) : List ℕ :=
  (List.range ((p + 1) * (p + 1))).filter (fun k =>
    decide (0 < k / (p + 1) ∧ k / (p + 1) < p ∧ 0 < k % (p + 1) ∧ k % (p + 1) < p))

/-- `HexahedronMesh.face_to_ipoint`: per face, write each of the four
edges' point rows into the face-grid boundary (reversed when the face's
local first endpoint differs from the edge's stored first endpoint), then
a fresh contiguous block for the `(p-1)^2` interior points. -/
def face_to_ipoint (m : HexMesh) (p : ℕ) : List (List ℕ) :=
  let NN := m.node.length
  let NE := m.edge.length
  (List.range m.face.length).map (fun f =>
    let base := NN + NE * (p - 1) + f * ((p - 1) * (p - 1))
    (writeSeq (faceRowAfterEdges m p f 4) (faceInterior p)
      ((List.range ((p - 1) * (p - 1))).map (fun t => base + t))).toList)

/-- `dofidx` of `cell_to_ipoint`: the `q`-th ascending position (with
`(a,b) = (q/(p+1), q%(p+1))`) of face slot `i` in the `(p+1)^3` cell grid
(row-major index `n*(p+1)^2 + m*(p+1) + l`; the slots fix `l=0`, `l=p`,
`n=0`, `n=p`, `m=0`, `m=p`). -/
def cellDofidxPos (p i q : ℕ) : ℕ :=
  let a := q / (p + 1)
  let b := q % (p + 1)
  match i with
  | 0 => a * (p + 1) * (p + 1) + b * (p + 1)
  | 1 => a * (p + 1) * (p + 1) + b * (p + 1) + p
  | 2 => a * (p + 1) + b
  | 3 => p * (p + 1) * (p + 1) + a * (p + 1) + b
  | 4 => a * (p + 1) * (p + 1) + b
  | _ => a * (p + 1) * (p + 1) + p * (p + 1) + b

/-- Reorder a 4-list by columns `[3, 0, 1, 2]` (the `[:, [3, 0, 1, 2]]`
step applied to `lf2e` and `face2edge` in `cell_to_ipoint`). -/
def reorder3012 (l : List ℕ) : List ℕ := [getl l 3, getl l 0, getl l 1, getl l 2]

/-- The `lf2e` table local to `cell_to_ipoint`. -/
def lf2eTab : List (List ℕ) :=
  [[0, 1, 2, 3], [8, 9, 10, 11],
   [3, 7, 11, 4], [1, 6, 9, 5],
   [0, 5, 8, 4], [2, 6, 10, 7]]

/-- The matched column choice `idx0` of `cell_to_ipoint` for cell `c`,
face slot `i`: double argsort of the reordered global face edges against
the reordered cell-local slot edges. -/
def cellSlotIdx0 (m : HexMesh) (c i : ℕ) : List ℕ :=
  let gf := getl (m.cell2face.getD c []) i
  let gfe := reorder3012 (m.face2edge.getD gf [])
  let lfe := (reorder3012 (lf2eTab.getD i [])).map (getl (m.cell2edge.getD c []))
  let s0 := argsort gfe
  let s1 := argsort (argsort lfe)
  s1.map (getl s0)

/-- The value `cell_to_ipoint` writes at grid index `q` of face slot `i`
of cell `c`: the stored face's point row read at the matched columns of
`[a, b, p-a, p-b]`. -/
def cellSlotVal (m : HexMesh) (p c i q : ℕ) : ℕ :=
  let gf := getl (m.cell2face.getD c []) i
  let idx0 := cellSlotIdx0 m c i
  let frow := (face_to_ipoint m p).getD gf []
  let a := q / (p + 1)
  let b := q % (p + 1)
  let cols : List ℕ := [a, b, p - a, p - b]
  let A := getl cols (getl idx0 0)
  let B := getl cols (getl idx0 1)
  getl frow (A * (p + 1) + B)

/-- The cell-grid array of cell `c` after the first `k` face-slot writes
of `cell_to_ipoint`. -/
def cellRowAfterFaces (m : HexMesh) (p c k : ℕ) : Array ℕ :=
  (List.range k).foldl
    (fun arr i => writeSeq arr
      ((List.range ((p + 1) * (p + 1))).map (cellDofidxPos p i))
      ((List.range ((p + 1) * (p + 1))).map (cellSlotVal m p c i)))
    (Array.mkArray ((p + 1) * (p + 1) * (p + 1)) 0)

/-- The ascending positions of the `indof` mask of `cell_to_ipoint`:
grid points with all three coordinates strictly between `0` and `p`. -/
def cellInterior (p : ℕ) : List ℕ :=
  (List.range ((p + 1) * (p + 1) * (p + 1))).filter (fun k =>
    decide (0 < k / ((p + 1) * (p + 1)) ∧ k / ((p + 1) * (p + 1)) < p ∧
      0 < k / (p + 1) % (p + 1) ∧ k / (p + 1) % (p + 1) < p ∧
      0 < k % (p + 1) ∧ k % (p + 1) < p))

/-- `HexahedronMesh.cell_to_ipoint`: per cell and face slot, match the
slot's four edges against the stored face's four edges by double argsort,
use the matched columns of `[a, b, p-a, p-b]` as the face-grid coordinate,
and pull the face's point row; then a fresh block for the `(p-1)^3`
interior points. -/
def cell_to_ipoint (m : HexMesh) (p : ℕ) : List (List ℕ) :=
  let NN := m.node.length
  let NE := m.edge.length
  let NF := m.face.length
  let NC := m.cell.length
  (List.range NC).map (fun c =>
    let base := NN + NE * (p - 1) + NF * ((p - 1) * (p - 1))
      + c * ((p - 1) * (p - 1) * (p - 1))
    (writeSeq (cellRowAfterFaces m p c 6) (cellInterior p)
      ((List.range ((p - 1) * (p - 1) * (p - 1))).map (fun t => base + t))).toList)

/-- `dofidx` of `cell_to_ipoint0` (the slots fix `l=0`, `l=p`, `m=0`,
`m=p`, `n=0`, `n=p`). -/
def cellDofidxPos0 (p i q : ℕ) : ℕ :=
  let a := q / (p + 1)
  let b := q % (p + 1)
  match i with
  | 0 => a * (p + 1) * (p + 1) + b * (p + 1)
  | 1 => a * (p + 1) * (p + 1) + b * (p + 1) + p
  | 2 => a * (p + 1) * (p + 1) + b
  | 3 => a * (p + 1) * (p + 1) + p * (p + 1) + b
  | 4 => a * (p + 1) + b
  | _ => p * (p + 1) * (p + 1) + a * (p + 1) + b

/-- Column `k` of the `multiIndex0` array of `cell_to_ipoint0` at grid
point `(a, b)`: `(p-a, p-b)`, `(a, p-b)`, `(a, b)`, `(p-a, b)`. -/
def multiIndex0col (p a b k : ℕ) : ℕ × ℕ :=
  match k with
  | 0 => (p - a, p - b)
  | 1 => (a, p - b)
  | 2 => (a, b)
  | _ => (p - a, b)

/-- The `localFace` table local to `cell_to_ipoint0`. -/
def localFace0 : List (List ℕ) :=
  [[0, 1, 2, 3], [4, 5, 6, 7],
   [0, 3, 7, 4], [1, 2, 6, 5],
   [0, 1, 5, 4], [3, 2, 6, 7]]

/-- The value `cell_to_ipoint0` writes at grid index `q` of face slot `i`
of cell `c`: the stored face's point row read at the `multiIndex0` column
selected by the slot matched (by double argsort of the face's vertices
against the slot's vertices) to sorted position 2. -/
def cellSlotVal0 (m : HexMesh) (p c i q : ℕ) : ℕ :=
  let gf := getl (m.cell2face.getD c []) i
  let gfv := m.face.getD gf []
  let lfv := (localFace0.getD i []).map (getl (m.cell.getD c []))
  let s0 := argsort gfv
  let s1 := argsort (argsort lfv)
  let idx0 : List ℕ := s1.map (getl s0)
  let frow := (face_to_ipoint m p).getD gf []
  let a := q / (p + 1)
  let b := q % (p + 1)
  let AB := multiIndex0col p a b (getl idx0 2)
  getl frow (AB.1 * (p + 1) + AB.2)

/-- The cell-grid array of cell `c` after the first `k` face-slot writes
of `cell_to_ipoint0`. -/
def cellRowAfterFaces0 (m : HexMesh) (p c k : ℕ) : Array ℕ :=
  (List.range k).foldl
    (fun arr i => writeSeq arr
      ((List.range ((p + 1) * (p + 1))).map (cellDofidxPos0 p i))
      ((List.range ((p + 1) * (p + 1))).map (cellSlotVal0 m p c i)))
    (Array.mkArray ((p + 1) * (p + 1) * (p + 1)) 0)

/-- `HexahedronMesh.cell_to_ipoint0`: the second (vertex-argsort based)
version of the cell numbering. -/
def cell_to_ipoint0 (m : HexMesh) (p : ℕ) : List (List ℕ) :=
  let NN := m.node.length
  let NE := m.edge.length
  let NF := m.face.length
  let NC := m.cell.length
  (List.range NC).map (fun c =>
    let base := NN + NE * (p - 1) + NF * ((p - 1) * (p - 1))
      + c * ((p - 1) * (p - 1) * (p - 1))
    (writeSeq (cellRowAfterFaces0 m p c 6) (cellInterior p)
      ((List.range ((p - 1) * (p - 1) * (p - 1))).map (fun t => base + t))).toList)

/-- Integer-coordinate component access. -/
def zget (l : List ℤ) (i : ℕ) : ℤ := l.getD i 0

/-- Coordinates of local vertex `v` of cell `c`. -/
def nodeOf (m : HexMesh) (c v : ℕ) : List ℤ :=
  m.node.getD (getl (m.cell.getD c []) v) []

/-- The local vertex sitting at corner `(i, j, k)` (each `0` or `1`) of
the cell's interpolation grid, per the nested `np.linspace` pattern of
`HexahedronMesh.interpolation_points`: axis `n` runs `0 → 1`, axis `m`
runs `0 → 3`, axis `l` runs `0 → 4`. -/
def cornerVertex (i j k : ℕ) : ℕ :=
  match i, j, k with
  | 0, 0, 0 => 0
  | 0, 0, _ => 4
  | 0, _, 0 => 3
  | 0, _, _ => 7
  | _, 0, 0 => 1
  | _, 0, _ => 5
  | _, _, 0 => 2
  | _, _, _ => 6

/-- Component `d` of `p^3` times the physical location of grid point
`(n, mm, l)` of cell `c` — the trilinear interpolation of the cell's
vertex coordinates used by `interpolation_points`, kept exact by scaling
with `p^3`. -/
def physScaled (m : HexMesh) (c p n mm l d : ℕ) : ℤ :=
  let t : ℕ → ℕ → ℕ → ℤ := fun i j k =>
    (if i = 0 then ((p : ℤ) - n) else (n : ℤ))
      * (if j = 0 then ((p : ℤ) - mm) else (mm : ℤ))
      * (if k = 0 then ((p : ℤ) - l) else (l : ℤ))
      * zget (nodeOf m c (cornerVertex i j k)) d
  t 0 0 0 + t 0 0 1 + t 0 1 0 + t 0 1 1 + t 1 0 0 + t 1 0 1 + t 1 1 0 + t 1 1 1

/-- The 3D multi-index `(n, m, l)` of flat cell-grid position `k`. -/
def gridMI (p k : ℕ) : ℕ × ℕ × ℕ :=
  (k / ((p + 1) * (p + 1)), k / (p + 1) % (p + 1), k % (p + 1))

/-- Scaled physical location (all three components) of flat grid position
`k` of cell `c`. -/
def physOfPos (m : HexMesh) (c p k : ℕ) : List ℤ :=
  let nml := gridMI p k
  [physScaled m c p nml.1 nml.2.1 nml.2.2 0,
   physScaled m c p nml.1 nml.2.1 nml.2.2 1,
   physScaled m c p nml.1 nml.2.1 nml.2.2 2]

/-- Combinatorial cross-cell consistency of `cell_to_ipoint` for the cell
pair `(cA, cB)`: any two grid positions of the two cells at the same
exact physical location carry the same global point index, and any two
positions with the same global index sit at the same physical location. -/
def consistentPair (m : HexMesh) (p cA cB : ℕ) : Bool :=
  let tab := cell_to_ipoint m p
  let rA := tab.getD cA []
  let rB := tab.getD cB []
  (List.range ((p + 1) * (p + 1) * (p + 1))).all (fun kA =>
    (List.range ((p + 1) * (p + 1) * (p + 1))).all (fun kB =>
      (physOfPos m cA p kA = physOfPos m cB p kB) =
        (getl rA kA = getl rB kB)))

/-- The node table of `HexahedronMesh.from_one_hexahedron` (coordinates
are exact `0`/`1` floats, embedded as integers). -/
def oneHexNode : List (List ℤ) :=
  [[0, 0, 0], [1, 0, 0], [1, 1, 0], [0, 0, 0],
   [0, 0, 1], [1, 0, 1], [1, 1, 1], [0, 0, 1]]

/-- The cell table of `HexahedronMesh.from_one_hexahedron`. -/
def oneHexCell : List (List ℕ) := [[0, 1, 2, 3, 4, 5, 6, 7]]

/-- The mesh built by `HexahedronMesh.from_one_hexahedron`. -/
def oneHexMesh : HexMesh := buildMesh oneHexNode oneHexCell

/-- The mesh of `HexahedronMesh.from_box` on the box
`[0, nx] x [0, ny] x [0, nz]` with unit divisions, so every node
coordinate is an exact integer; node and cell layout follow the source
(`idx = arange(NN).reshape(nx+1, ny+1, nz+1)` and the eight `cell[:, j]`
offset formulas). -/
def fromBoxInt (nx ny nz : ℕ) : HexMesh :=
  let nyz := (ny + 1) * (nz + 1)
  let node := (List.range ((nx + 1) * nyz)).map (fun i =>
    [((i / nyz : ℕ) : ℤ), ((i % nyz / (nz + 1) : ℕ) : ℤ), ((i % (nz + 1) : ℕ) : ℤ)])
  let cells := (List.range (nx * ny * nz)).map (fun c =>
    let cx := c / (ny * nz)
    let cy := c % (ny * nz) / nz
    let cz := c % nz
    let c0 := cx * nyz + cy * (nz + 1) + cz
    [c0, c0 + nyz, c0 + nyz + nz + 1, c0 + nz + 1,
     c0 + 1, c0 + nyz + 1, c0 + nyz + nz + 2, c0 + nz + 2])
  buildMesh node cells

/-- Two unit cubes side by side along `y`; the second cell's labeling is
rotated a quarter turn across the shared face, which is face slot 5 of
cell 0 and face slot 4 of cell 1 (a topologically valid hexahedron pair:
the second cell is the same geometric cube with `x` as its vertical
axis). -/
def sideTwist : HexMesh :=
  buildMesh
    [[0, 0, 0], [1, 0, 0], [1, 1, 0], [0, 1, 0],
     [0, 0, 1], [1, 0, 1], [1, 1, 1], [0, 1, 1],
     [0, 2, 0], [1, 2, 0], [1, 2, 1], [0, 2, 1]]
    [[0, 1, 2, 3, 4, 5, 6, 7], [3, 7, 11, 8, 2, 6, 10, 9]]

/-- Two stacked unit cubes with the upper cell's local numbering rotated
by `r` quarter turns (`r < 4`) or, for `r ≥ 4`, mirrored and rotated:
all eight choices give a topologically valid hexahedron on the same
geometry, differing only in how the shared face is traversed. -/
def twoCellsTwisted (r : ℕ) : HexMesh :=
  let node : List (List ℤ) :=
    [[0, 0, 0], [1, 0, 0], [1, 1, 0], [0, 1, 0],
     [0, 0, 1], [1, 0, 1], [1, 1, 1], [0, 1, 1],
     [0, 0, 2], [1, 0, 2], [1, 1, 2], [0, 1, 2]]
  let upper : List ℕ :=
    match r with
    | 0 => [4, 5, 6, 7, 8, 9, 10, 11]
    | 1 => [5, 6, 7, 4, 9, 10, 11, 8]
    | 2 => [6, 7, 4, 5, 10, 11, 8, 9]
    | 3 => [7, 4, 5, 6, 11, 8, 9, 10]
    | 4 => [5, 4, 7, 6, 9, 8, 11, 10]
    | 5 => [4, 7, 6, 5, 8, 11, 10, 9]
    | 6 => [7, 6, 5, 4, 11, 10, 9, 8]
    | _ => [6, 5, 4, 7, 10, 9, 8, 11]
  buildMesh node [[0, 1, 2, 3, 4, 5, 6, 7], upper]

/-- The error taxonomy of the spec for construction-time failures. -/
inductive MeshError where
  | ValidationError
  | TopologyError
deriving Repr, DecidableEq

/-- Modelled from the spec: the validating mesh constructor (the
validation lives in the base-class builder, not in the sampled sources).
Construction either succeeds atomically or reports failure: a cell with a
duplicate node index is a `ValidationError`; a face key claimed by more
than two cells is a non-manifold mesh, a fatal `TopologyError`; in the
error cases no mesh value is produced at all. -/
def buildMeshChecked (node : List (List ℤ)) (cells : List (List ℕ)) :
    Except MeshError HexMesh :=
  if cells.any (fun c => decide (¬ c.Nodup)) then .error .ValidationError
  else if (cells.flatMap cellFaces).any (fun f =>
      decide (2 < (cells.flatMap cellFaces).countP (fun g =>
        decide (sortKey g = sortKey f)))) then .error .TopologyError
  else .ok (buildMesh node cells)

/-- The later, shadowing definition of `cell_volume`
(`def cell_volume(self): pass`): it overrides the quadrature-based
implementation above it and returns `None` for every mesh. -/
def cell_volume (_m : HexMesh) : Option (List ℚ) := none

/-- The later, shadowing definition of `face_area`
(`def face_area(self): pass`). -/
def face_area (_m : HexMesh) : Option (List ℚ) := none

/-- Shape-only model of a NumPy ndarray: the failure behaviour of the
geometry kernel depends only on operand ranks. -/
structure NDArr where
  shape : List ℕ
deriving Repr, DecidableEq

/-- The `ValueError` message class raised by `np.einsum` when an operand's
rank does not match its subscript. -/
def einsumMismatch : String :=
  "ValueError: einsum operand does not match its subscripts"

/-- Shape-level `np.einsum`: every operand's rank must equal the length of
its subscript group, otherwise NumPy raises a `ValueError`. -/
def einsum (subs : List ℕ) (ops : List NDArr) (outShape : List ℕ) :
    Except String NDArr :=
  if subs.length == ops.length
      && (subs.zip ops).all (fun so => so.2.shape.length == so.1)
  then .ok ⟨outShape⟩ else .error einsumMismatch

/-- `HexahedronMesh.grad_shape_function`, modelled at shape level for a
tuple argument `bc` of length `TD` whose 1-D factor holds `NQ` points:
after computing the 1-D `gphi`, the source overwrites `gphi` with a
rank-3 zero array of shape `(n, ldof, TD)` and then feeds that array to
an einsum whose first subscript group `im` (resp. `jn`, `ko`) is rank 2,
so NumPy raises before any branch on `variables` is taken; the
`variables='x'` branches additionally reference the undefined name
`index` (a `NameError` if they were ever reached). -/
def grad_shape_function (TD NQ p : ℕ) (vars : String) :
    Except String NDArr := do
  let phi : NDArr := ⟨[NQ, p + 1]⟩
  let R : NDArr := ⟨[NQ, p + 1, 2]⟩
  let _gphi1d ← einsum [3, 1] [R, ⟨[2]⟩] [NQ, p + 1]
  let n := NQ ^ TD
  let ldof := (p + 1) ^ TD
  let gphi : NDArr := ⟨[n, ldof, TD]⟩
  if TD = 3 then do
    let _c0 ← einsum [2, 2, 2] [gphi, phi, phi] [n, ldof]
    let _c1 ← einsum [2, 2, 2] [phi, gphi, phi] [n, ldof]
    let _c2 ← einsum [2, 2, 2] [phi, phi, gphi] [n, ldof]
    if vars = "x" then .error "NameError: name index is not defined"
    else pure gphi
  else if TD = 2 then do
    let _c0 ← einsum [2, 2] [gphi, phi] [n, ldof]
    let _c1 ← einsum [2, 2] [phi, gphi] [n, ldof]
    if vars = "x" then .error "NameError: name index is not defined"
    else pure gphi
  else pure gphi

/-- `HexahedronMesh.jacobi_matrix`, shape level: it asserts `bc` is a
tuple and calls `grad_shape_function(bc, p=1, variables='u')`, whose
error propagates; the final einsum against the node coordinates (never
reached for `TD = 2` or `3`) would produce the `(NQ^TD, NEnt, 3, TD)`
Jacobian stack. -/
def jacobi_matrix (TD NQ NEnt : ℕ) : Except String NDArr := do
  let _gphi ← grad_shape_function TD NQ 1 "u"
  pure ⟨[NQ ^ TD, NEnt, 3, TD]⟩

/-- The quadrature-based `cell_volume` (the earlier definition, lines
181-190): integrates `det(J)` with the order-2 tensor-product rule, so it
calls `jacobi_matrix` on a 3-tuple of 2-point 1-D rules. -/
def cell_volume_quadrature (NC : ℕ) : Except String NDArr := do
  let _J ← jacobi_matrix 3 2 NC
  pure ⟨[NC]⟩

/-- The quadrature-based `face_area` (lines 192-202): calls
`jacobi_matrix` on a 2-tuple of 2-point 1-D rules. -/
def face_area_quadrature (NF : ℕ) : Except String NDArr := do
  let _J ← jacobi_matrix 2 2 NF
  pure ⟨[NF]⟩

/-! ### List-level view of the fancy-index writes -/

/-- The list-level counterpart of `writeSeq`. -/
def listWrite (l : List ℕ) (pos vals : List ℕ) : List ℕ :=
  (pos.zip vals).foldl (fun a pv => a.set pv.1 pv.2) l

theorem toList_setD (a : Array ℕ) (i v : ℕ) :
    (a.setD i v).toList = a.toList.set i v := by
  unfold Array.setD
  split
  · exact Array.toList_set a ⟨i, by assumption⟩ v
  · rw [List.set_eq_of_length_le]
    simpa using Nat.le_of_not_lt (by assumption)

theorem writeSeq_toList (arr : Array ℕ) (pos vals : List ℕ) :
    (writeSeq arr pos vals).toList = listWrite arr.toList pos vals := by
  unfold writeSeq listWrite
  generalize pos.zip vals = z
  induction z generalizing arr with
  | nil => rfl
  | cons hd tl ih => simp [List.foldl_cons, ih, toList_setD]

theorem listWrite_nil_pos (l vals : List ℕ) : listWrite l [] vals = l := rfl

theorem listWrite_nil_vals (l pos : List ℕ) : listWrite l pos [] = l := by
  cases pos <;> rfl

theorem listWrite_cons (l : List ℕ) (p v : ℕ) (pos vals : List ℕ) :
    listWrite l (p :: pos) (v :: vals) = listWrite (l.set p v) pos vals := rfl

theorem listWrite_length (l pos vals : List ℕ) :
    (listWrite l pos vals).length = l.length := by
  induction pos generalizing vals l with
  | nil => rfl
  | cons p ps ih =>
    cases vals with
    | nil => rw [listWrite_nil_vals]
    | cons v vs => rw [listWrite_cons, ih, List.length_set]

theorem listWrite_getD_of_not_mem (l pos vals : List ℕ) (k : ℕ) (hk : k ∉ pos) :
    (listWrite l pos vals).getD k 0 = l.getD k 0 := by
  induction pos generalizing vals l with
  | nil => rfl
  | cons p ps ih =>
    cases vals with
    | nil => rw [listWrite_nil_vals]
    | cons v vs =>
      rw [listWrite_cons, ih _ _ (fun h => hk (List.mem_cons_of_mem _ h))]
      have hne : p ≠ k := fun h => hk (h ▸ List.mem_cons_self _ _)
      simp [List.getD_eq_getElem?_getD, List.getElem?_set_ne hne]

theorem listWrite_getD_at (l pos vals : List ℕ) (j : ℕ) (hnd : pos.Nodup)
    (hj : j < pos.length) (hjv : j < vals.length) (hb : pos.getD j 0 < l.length) :
    (listWrite l pos vals).getD (pos.getD j 0) 0 = vals.getD j 0 := by
  induction pos generalizing vals l j with
  | nil => simp at hj
  | cons p ps ih =>
    cases vals with
    | nil => simp at hjv
    | cons v vs =>
      rw [listWrite_cons]
      cases j with
      | zero =>
        have hp : p ∉ ps := (List.nodup_cons.mp hnd).1
        have hgd : (p :: ps).getD 0 0 = p := rfl
        rw [hgd] at hb ⊢
        rw [listWrite_getD_of_not_mem _ _ _ _ hp]
        show (l.set p v).getD p 0 = v
        simp [List.getD_eq_getElem?_getD, List.getElem?_set, hb]
      | succ j' =>
        have hgd : (p :: ps).getD (j' + 1) 0 = ps.getD j' 0 := rfl
        rw [hgd] at hb ⊢
        show (listWrite (l.set p v) ps vs).getD (ps.getD j' 0) 0 = vs.getD j' 0
        exact ih (l.set p v) vs j' (List.nodup_cons.mp hnd).2
          (by simpa using hj) (by simpa using hjv)
          (by simpa [List.length_set] using hb)

theorem getD_eq_getElem (l : List ℕ) (j : ℕ) (hj : j < l.length) :
    l.getD j 0 = l[j] := by
  simp [List.getD_eq_getElem?_getD, List.getElem?_eq_getElem hj]

theorem listWrite_map_getD (l pos vals : List ℕ) (hnd : pos.Nodup)
    (hlen : pos.length = vals.length) (hb : ∀ x ∈ pos, x < l.length) :
    pos.map (fun k => (listWrite l pos vals).getD k 0) = vals := by
  apply List.ext_getElem
  · simpa using hlen
  · intro j h1 h2
    simp only [List.getElem_map]
    have hj : j < pos.length := by simpa using h1
    have hb' : pos.getD j 0 < l.length := by
      rw [getD_eq_getElem pos j hj]
      exact hb _ (List.getElem_mem hj)
    have hmain := listWrite_getD_at l pos vals j hnd hj h2 hb'
    rw [getD_eq_getElem pos j hj] at hmain
    rw [getD_eq_getElem vals j h2] at hmain
    exact hmain

theorem mem_listWrite (l pos vals : List ℕ) (x : ℕ)
    (h : x ∈ listWrite l pos vals) : x ∈ l ∨ x ∈ vals := by
  induction pos generalizing vals l with
  | nil => exact Or.inl h
  | cons p ps ih =>
    cases vals with
    | nil => rw [listWrite_nil_vals] at h; exact Or.inl h
    | cons v vs =>
      rw [listWrite_cons] at h
      rcases ih _ _ h with h' | h'
      · rcases List.mem_or_eq_of_mem_set h' with h'' | h''
        · exact Or.inl h''
        · exact Or.inr (h'' ▸ List.mem_cons_self _ _)
      · exact Or.inr (List.mem_cons_of_mem _ h')

/-! ### Reading back the face-grid edge writes (claim C4) -/

theorem map_range_getD (n e : ℕ) (f : ℕ → List ℕ) (he : e < n) :
    ((List.range n).map f).getD e [] = f e := by
  simp [List.getD_eq_getElem?_getD, List.getElem?_map, List.getElem?_range he]

theorem faceDofidx_length (p i : ℕ) : (faceDofidx p i).length = p + 1 := by
  rcases i with _ | _ | _ | i <;> simp [faceDofidx]

theorem faceDofidx_nodup (p i : ℕ) : (faceDofidx p i).Nodup := by
  rcases i with _ | _ | _ | i
  · refine List.Nodup.map ?_ (List.nodup_range _)
    intro a b h
    have h' : a * (p + 1) = b * (p + 1) := h
    exact Nat.eq_of_mul_eq_mul_right (Nat.succ_pos p) h'
  · refine List.Nodup.map ?_ (List.nodup_range _)
    intro a b h
    have h' : p * (p + 1) + a = p * (p + 1) + b := h
    omega
  · refine List.Nodup.map ?_ (List.nodup_range _)
    intro a b h
    have h' : a * (p + 1) + p = b * (p + 1) + p := h
    exact Nat.eq_of_mul_eq_mul_right (show 0 < p + 1 by omega)
      (show a * (p + 1) = b * (p + 1) by omega)
  · exact List.Nodup.map (fun a b h => h) (List.nodup_range _)

theorem faceDofidx_lt (p i : ℕ) : ∀ x ∈ faceDofidx p i, x < (p + 1) * (p + 1) := by
  have h1 : (p + 1) * (p + 1) = p * (p + 1) + (p + 1) := by ring
  rcases i with _ | _ | _ | i <;>
  · intro x hx
    simp only [faceDofidx, List.mem_map, List.mem_range] at hx
    obtain ⟨a, ha, rfl⟩ := hx
    have h2 : a * (p + 1) ≤ p * (p + 1) :=
      Nat.mul_le_mul_right _ (by omega)
    omega

theorem faceRowAfterEdges_succ (m : HexMesh) (p f k : ℕ) :
    faceRowAfterEdges m p f (k + 1) =
      writeSeq (faceRowAfterEdges m p f k) (faceDofidx p k) (faceRowEdgeSeq m p f k) := by
  unfold faceRowAfterEdges
  rw [List.range_succ, List.foldl_append, List.foldl_cons, List.foldl_nil]

theorem faceRowAfterEdges_toList_length (m : HexMesh) (p f k : ℕ) :
    (faceRowAfterEdges m p f k).toList.length = (p + 1) * (p + 1) := by
  induction k with
  | zero =>
    show (Array.mkArray ((p + 1) * (p + 1)) 0).toList.length = _
    simp
  | succ k ih =>
    rw [faceRowAfterEdges_succ, writeSeq_toList, listWrite_length, ih]

theorem edge_to_ipoint_row_length (m : HexMesh) (p e : ℕ) (hp : 1 ≤ p)
    (he : e < m.edge.length) :
    ((edge_to_ipoint m p).getD e []).length = p + 1 := by
  unfold edge_to_ipoint
  rw [map_range_getD _ _ _ he]
  simp
  omega

theorem faceRowEdgeSeq_length (m : HexMesh) (p f i : ℕ) (hp : 1 ≤ p)
    (hge : getl (m.face2edge.getD f []) i < m.edge.length) :
    (faceRowEdgeSeq m p f i).length = p + 1 := by
  unfold faceRowEdgeSeq
  dsimp only
  split
  · exact edge_to_ipoint_row_length m p _ hp hge
  · rw [List.length_reverse]
    exact edge_to_ipoint_row_length m p _ hp hge

/-- Claim C4: for every mesh, order `p ≥ 1`, face `f` and local edge slot
`i < 4`, after its step of `face_to_ipoint` the edge-boundary positions
`dofidx[i]` of the face grid hold exactly the edge's own global point row
(`edge_to_ipoint`), in forward order when the face's local first endpoint
coincides with the edge's stored first endpoint, and reversed when it
does not. -/
theorem face_to_ipoint_writes_oriented_edge_rows (m : HexMesh) (p f i : ℕ)
    (hp : 1 ≤ p) (hge : getl (m.face2edge.getD f []) i < m.edge.length) :
    (faceDofidx p i).map
        (fun k => (faceRowAfterEdges m p f (i + 1)).toList.getD k 0)
      = (if getl (m.face.getD f []) (getl (localEdgeF.getD i []) 0)
            = getl (m.edge.getD (getl (m.face2edge.getD f []) i) []) 0
         then (edge_to_ipoint m p).getD (getl (m.face2edge.getD f []) i) []
         else ((edge_to_ipoint m p).getD (getl (m.face2edge.getD f []) i) []).reverse) := by
  rw [faceRowAfterEdges_succ, writeSeq_toList]
  have h := listWrite_map_getD ((faceRowAfterEdges m p f i).toList)
    (faceDofidx p i) (faceRowEdgeSeq m p f i)
    (faceDofidx_nodup p i)
    (by rw [faceDofidx_length, faceRowEdgeSeq_length m p f i hp hge])
    (by intro x hx
        rw [faceRowAfterEdges_toList_length]
        exact faceDofidx_lt p i x hx)
  exact h

/-- Witness for C4 on the single-cube `from_box` mesh, `p = 2`, face 0,
edge slot 1. -/
theorem face_to_ipoint_writes_oriented_edge_rows_witness :
    (faceDofidx 2 1).map
        (fun k => (faceRowAfterEdges (fromBoxInt 1 1 1) 2 0 (1 + 1)).toList.getD k 0)
      = (if getl ((fromBoxInt 1 1 1).face.getD 0 [])
              (getl (localEdgeF.getD 1 []) 0)
            = getl ((fromBoxInt 1 1 1).edge.getD
                (getl ((fromBoxInt 1 1 1).face2edge.getD 0 []) 1) []) 0
         then (edge_to_ipoint (fromBoxInt 1 1 1) 2).getD
           (getl ((fromBoxInt 1 1 1).face2edge.getD 0 []) 1) []
         else ((edge_to_ipoint (fromBoxInt 1 1 1) 2).getD
           (getl ((fromBoxInt 1 1 1).face2edge.getD 0 []) 1) []).reverse) :=
  face_to_ipoint_writes_oriented_edge_rows (fromBoxInt 1 1 1) 2 0 1
    (by decide) (by decide)

/-! ### Counting the interior grid positions -/

theorem map_range_getDN (n e : ℕ) (f : ℕ → ℕ) (he : e < n) :
    ((List.range n).map f).getD e 0 = f e := by
  simp [List.getD_eq_getElem?_getD, List.getElem?_map, List.getElem?_range he]

theorem filter_interval_length (N t : ℕ) :
    ((List.range N).filter (fun x => decide (0 < x ∧ x < t))).length = min N t - 1 := by
  induction N with
  | zero => simp
  | succ N ih =>
    rw [List.range_succ, List.filter_append, List.length_append, ih]
    by_cases h : 0 < N ∧ N < t
    · have : (List.filter (fun x => decide (0 < x ∧ x < t)) [N]).length = 1 := by
        simp [h]
      rw [this]
      omega
    · have : (List.filter (fun x => decide (0 < x ∧ x < t)) [N]).length = 0 := by
        simp only [List.filter, decide_eq_true_eq]
        split
        · exact absurd (by simpa using (by assumption : decide (0 < N ∧ N < t) = true)) h
        · rfl
      rw [this]
      omega

theorem filter_grid_length (A b : ℕ) (P Q : ℕ → Prop)
    [DecidablePred P] [DecidablePred Q] (hb : 0 < b) :
    ((List.range (A * b)).filter (fun k => decide (P (k / b) ∧ Q (k % b)))).length
      = ((List.range A).filter (fun i => decide (P i))).length *
        ((List.range b).filter (fun j => decide (Q j))).length := by
  induction A with
  | zero => simp
  | succ A ih =>
    have hAb : (A + 1) * b = A * b + b := by ring
    rw [hAb, List.range_add, List.filter_append, List.length_append, ih]
    have hinner : (List.filter (fun k => decide (P (k / b) ∧ Q (k % b)))
        (List.map (fun x => A * b + x) (List.range b))).length
        = if P A then ((List.range b).filter (fun j => decide (Q j))).length else 0 := by
      rw [← List.countP_eq_length_filter, List.countP_map, ← List.countP_eq_length_filter]
      have hcongr : ∀ x ∈ List.range b,
          ((fun k => decide (P (k / b) ∧ Q (k % b))) ∘ (fun x => A * b + x)) x
            = (fun j => decide (P A ∧ Q j)) x := by
        intro x hx
        have hxb : x < b := List.mem_range.mp hx
        have hdiv : (A * b + x) / b = A := by
          rw [Nat.mul_comm A b, Nat.mul_add_div hb, Nat.div_eq_of_lt hxb]
          omega
        have hmod : (A * b + x) % b = x := by
          rw [Nat.mul_comm A b, Nat.mul_add_mod]
          exact Nat.mod_eq_of_lt hxb
        simp [hdiv, hmod]
      rw [List.countP_congr (fun x hx => by rw [hcongr x hx])]
      by_cases hP : P A
      · rw [if_pos hP]
        apply List.countP_congr
        intro x _
        simp [hP]
      · rw [if_neg hP]
        apply List.countP_eq_zero.mpr
        intro x _
        simp [hP]
    rw [hinner, List.range_succ, List.filter_append, List.length_append]
    by_cases hP : P A
    · have : (List.filter (fun i => decide (P i)) [A]).length = 1 := by simp [hP]
      rw [this, if_pos hP]
      ring
    · have : (List.filter (fun i => decide (P i)) [A]).length = 0 := by simp [hP]
      rw [this, if_neg hP]
      ring

theorem faceInterior_length (p : ℕ) :
    (faceInterior p).length = (p - 1) * (p - 1) := by
  unfold faceInterior
  have h := filter_grid_length (p + 1) (p + 1)
    (fun i => 0 < i ∧ i < p) (fun j => 0 < j ∧ j < p) (Nat.succ_pos p)
  have hcongr : ∀ k ∈ List.range ((p + 1) * (p + 1)),
      (decide (0 < k / (p + 1) ∧ k / (p + 1) < p ∧ 0 < k % (p + 1) ∧ k % (p + 1) < p))
        = (decide ((0 < k / (p + 1) ∧ k / (p + 1) < p) ∧ 0 < k % (p + 1) ∧ k % (p + 1) < p)) := by
    intro k _
    by_cases h1 : 0 < k / (p + 1) ∧ k / (p + 1) < p ∧ 0 < k % (p + 1) ∧ k % (p + 1) < p
    · simp [h1.1, h1.2.1, h1.2.2.1, h1.2.2.2]
    · simp only [decide_eq_decide]
      tauto
  rw [List.filter_congr hcongr, h, filter_interval_length]
  have : min (p + 1) p = p := by omega
  rw [this]

theorem cellInterior_length (p : ℕ) :
    (cellInterior p).length = (p - 1) * (p - 1) * (p - 1) := by
  unfold cellInterior
  have h := filter_grid_length ((p + 1) * (p + 1)) (p + 1)
    (fun i => 0 < i / (p + 1) ∧ i / (p + 1) < p ∧ 0 < i % (p + 1) ∧ i % (p + 1) < p)
    (fun j => 0 < j ∧ j < p) (Nat.succ_pos p)
  have hcongr : ∀ k ∈ List.range ((p + 1) * (p + 1) * (p + 1)),
      (decide (0 < k / ((p + 1) * (p + 1)) ∧ k / ((p + 1) * (p + 1)) < p ∧
        0 < k / (p + 1) % (p + 1) ∧ k / (p + 1) % (p + 1) < p ∧
        0 < k % (p + 1) ∧ k % (p + 1) < p))
        = (decide ((0 < k / (p + 1) / (p + 1) ∧ k / (p + 1) / (p + 1) < p ∧
            0 < k / (p + 1) % (p + 1) ∧ k / (p + 1) % (p + 1) < p) ∧
           (0 < k % (p + 1) ∧ k % (p + 1) < p))) := by
    intro k _
    rw [Nat.div_div_eq_div_mul]
    simp only [decide_eq_decide]
    tauto
  rw [List.filter_congr hcongr, h]
  have h2 : ((List.range ((p + 1) * (p + 1))).filter (fun i =>
      decide (0 < i / (p + 1) ∧ i / (p + 1) < p ∧
        0 < i % (p + 1) ∧ i % (p + 1) < p))).length = (p - 1) * (p - 1) :=
    faceInterior_length p
  rw [h2, filter_interval_length]
  have : min (p + 1) p = p := by omega
  rw [this]

theorem cellInterior_nodup (p : ℕ) : (cellInterior p).Nodup :=
  List.Nodup.filter _ (List.nodup_range _)

theorem cellInterior_mem_lt (p : ℕ) :
    ∀ x ∈ cellInterior p, x < (p + 1) * (p + 1) * (p + 1) := by
  intro x hx
  exact List.mem_range.mp (List.mem_of_mem_filter hx)

theorem cellRowAfterFaces_succ (m : HexMesh) (p c k : ℕ) :
    cellRowAfterFaces m p c (k + 1) =
      writeSeq (cellRowAfterFaces m p c k)
        ((List.range ((p + 1) * (p + 1))).map (cellDofidxPos p k))
        ((List.range ((p + 1) * (p + 1))).map (cellSlotVal m p c k)) := by
  unfold cellRowAfterFaces
  rw [List.range_succ, List.foldl_append, List.foldl_cons, List.foldl_nil]

theorem cellRowAfterFaces_toList_length (m : HexMesh) (p c k : ℕ) :
    (cellRowAfterFaces m p c k).toList.length = (p + 1) * (p + 1) * (p + 1) := by
  induction k with
  | zero =>
    show (Array.mkArray ((p + 1) * (p + 1) * (p + 1)) 0).toList.length = _
    simp
  | succ k ih =>
    rw [cellRowAfterFaces_succ, writeSeq_toList, listWrite_length, ih]

theorem cellRowAfterFaces0_succ (m : HexMesh) (p c k : ℕ) :
    cellRowAfterFaces0 m p c (k + 1) =
      writeSeq (cellRowAfterFaces0 m p c k)
        ((List.range ((p + 1) * (p + 1))).map (cellDofidxPos0 p k))
        ((List.range ((p + 1) * (p + 1))).map (cellSlotVal0 m p c k)) := by
  unfold cellRowAfterFaces0
  rw [List.range_succ, List.foldl_append, List.foldl_cons, List.foldl_nil]

theorem cellRowAfterFaces0_toList_length (m : HexMesh) (p c k : ℕ) :
    (cellRowAfterFaces0 m p c k).toList.length = (p + 1) * (p + 1) * (p + 1) := by
  induction k with
  | zero =>
    show (Array.mkArray ((p + 1) * (p + 1) * (p + 1)) 0).toList.length = _
    simp
  | succ k ih =>
    rw [cellRowAfterFaces0_succ, writeSeq_toList, listWrite_length, ih]

/-! ### Tier offsets and the valid-input hypotheses (claim C2) -/

/-- Spec offset `edgeBase = NN`. -/
def edgeBase (m : HexMesh) : ℕ := m.node.length

/-- Spec offset `faceBase = NN + NE*(p-1)`. -/
def faceBase (m : HexMesh) (p : ℕ) : ℕ := edgeBase m + m.edge.length * (p - 1)

/-- Spec offset `cellBase = faceBase + NF*(p-1)^2`. -/
def cellBase (m : HexMesh) (p : ℕ) : ℕ :=
  faceBase m p + m.face.length * ((p - 1) * (p - 1))

/-- Spec total `cellBase + NC*(p-1)^3`. -/
def totalIpoints (m : HexMesh) (p : ℕ) : ℕ :=
  cellBase m p + m.cell.length * ((p - 1) * (p - 1) * (p - 1))

/-- A well-formed raw input: at least one node and one cell, cells are
8-tuples of distinct in-range node indices, every node is referenced, and
the mesh is conforming: each cell's four slot edges are (as a multiset of
canonical edge indices) exactly the four edges of the stored face it is
glued to. -/
structure ValidInput (node : List (List ℤ)) (cells : List (List ℕ)) : Prop where
  node_ne : node ≠ []
  cells_ne : cells ≠ []
  cell_len : ∀ c ∈ cells, c.length = 8
  cell_lt : ∀ c ∈ cells, ∀ v ∈ c, v < node.length
  cell_nodup : ∀ c ∈ cells, c.Nodup
  node_used : ∀ v, v < node.length → ∃ c ∈ cells, v ∈ c
  conforming : ∀ ci, ci < cells.length → ∀ i, i < 6 →
    ((reorder3012 (lf2eTab.getD i [])).map
        (getl ((buildCell2edge cells).getD ci []))).Perm
      (reorder3012 ((buildFace2edge cells).getD
        (getl ((buildCell2face cells).getD ci []) i) []))

theorem getD_eq_getElem' {α : Type} (l : List α) (d : α) (j : ℕ)
    (hj : j < l.length) : l.getD j d = l[j] := by
  simp [List.getD_eq_getElem?_getD, List.getElem?_eq_getElem hj]

theorem getD_mem_of_lt' {α : Type} (l : List α) (d : α) (k : ℕ)
    (hk : k < l.length) : l.getD k d ∈ l := by
  rw [getD_eq_getElem' _ _ _ hk]
  exact List.getElem_mem hk

theorem getl_mem_or_zero (l : List ℕ) (i : ℕ) : getl l i ∈ l ∨ getl l i = 0 := by
  by_cases h : i < l.length
  · left
    rw [getl, getD_eq_getElem _ _ h]
    exact List.getElem_mem h
  · right
    rw [getl, List.getD_eq_getElem?_getD, List.getElem?_eq_none (Nat.le_of_not_lt h)]
    rfl

theorem getD_nil_of_le {α : Type} [Inhabited (List α)] (l : List (List α)) (i : ℕ)
    (h : l.length ≤ i) : l.getD i [] = [] := by
  rw [List.getD_eq_getElem?_getD, List.getElem?_eq_none h]
  rfl

theorem foldl_dedup_mem (ls : List (List ℕ)) (acc : List (List ℕ)) (y : List ℕ)
    (hy : y ∈ ls.foldl
      (fun acc x => if acc.any (fun z => sortKey z = sortKey x) then acc else acc ++ [x])
      acc) :
    y ∈ acc ∨ y ∈ ls := by
  induction ls generalizing acc with
  | nil => exact Or.inl hy
  | cons x xs ih =>
    rcases ih _ hy with h | h
    · have h' : y ∈ (if acc.any (fun z => sortKey z = sortKey x)
          then acc else acc ++ [x]) := h
      by_cases hc : (acc.any (fun z => sortKey z = sortKey x)) = true
      · rw [if_pos hc] at h'
        exact Or.inl h'
      · rw [if_neg hc] at h'
        rcases List.mem_append.mp h' with h'' | h''
        · exact Or.inl h''
        · right
          simp only [List.mem_singleton] at h''
          exact h'' ▸ List.mem_cons_self _ _
    · exact Or.inr (List.mem_cons_of_mem _ h)

theorem mem_dedupByKey (ls : List (List ℕ)) (y : List ℕ)
    (hy : y ∈ dedupByKey ls) : y ∈ ls := by
  rcases foldl_dedup_mem ls [] y hy with h | h
  · cases h
  · exact h

theorem mem_buildEdges (cells : List (List ℕ)) (r : List ℕ)
    (hr : r ∈ buildEdges cells) : ∃ c ∈ cells, r ∈ cellEdges c :=
  List.mem_flatMap.mp (mem_dedupByKey _ _ hr)

theorem mem_buildFaces (cells : List (List ℕ)) (r : List ℕ)
    (hr : r ∈ buildFaces cells) : ∃ c ∈ cells, r ∈ cellFaces c :=
  List.mem_flatMap.mp (mem_dedupByKey _ _ hr)

theorem cellEdges_entries (c : List ℕ) (r : List ℕ) (hr : r ∈ cellEdges c) :
    ∀ v ∈ r, v ∈ c ∨ v = 0 := by
  obtain ⟨e, _, rfl⟩ := List.mem_map.mp hr
  intro v hv
  obtain ⟨a, _, rfl⟩ := List.mem_map.mp hv
  exact getl_mem_or_zero c a

theorem cellFaces_entries (c : List ℕ) (r : List ℕ) (hr : r ∈ cellFaces c) :
    ∀ v ∈ r, v ∈ c ∨ v = 0 := by
  obtain ⟨e, _, rfl⟩ := List.mem_map.mp hr
  intro v hv
  obtain ⟨a, _, rfl⟩ := List.mem_map.mp hv
  exact getl_mem_or_zero c a

/-- All entries of all canonical edge rows are valid node indices. -/
theorem buildEdges_entries_lt (node : List (List ℤ)) (cells : List (List ℕ))
    (hv : ValidInput node cells) :
    ∀ r ∈ buildEdges cells, ∀ v ∈ r, v < node.length := by
  intro r hr v hvr
  obtain ⟨c, hc, hrc⟩ := mem_buildEdges cells r hr
  rcases cellEdges_entries c r hrc v hvr with h | h
  · exact hv.cell_lt c hc v h
  · rw [h]
    exact List.length_pos.mpr hv.node_ne

/-- All entries of all canonical face rows are valid node indices. -/
theorem buildFaces_entries_lt (node : List (List ℤ)) (cells : List (List ℕ))
    (hv : ValidInput node cells) :
    ∀ r ∈ buildFaces cells, ∀ v ∈ r, v < node.length := by
  intro r hr v hvr
  obtain ⟨c, hc, hrc⟩ := mem_buildFaces cells r hr
  rcases cellFaces_entries c r hrc v hvr with h | h
  · exact hv.cell_lt c hc v h
  · rw [h]
    exact List.length_pos.mpr hv.node_ne

/-- Bound for the edge point rows: every value is below `faceBase`. -/
theorem edge_to_ipoint_mem_lt (m : HexMesh) (p : ℕ)
    (hedge : ∀ r ∈ m.edge, ∀ v ∈ r, v < m.node.length)
    (hNN : 0 < m.node.length) :
    ∀ e, ∀ v ∈ (edge_to_ipoint m p).getD e [],
      v < m.node.length + m.edge.length * (p - 1) := by
  intro e v hv
  by_cases he : e < m.edge.length
  · unfold edge_to_ipoint at hv
    rw [map_range_getD _ _ _ he] at hv
    have her : m.edge.getD e [] ∈ m.edge := by
      rw [getD_eq_getElem' _ _ _ he]
      exact List.getElem_mem he
    rcases List.mem_cons.mp hv with h | hv2
    · rcases getl_mem_or_zero (m.edge.getD e []) 0 with hm | hz
      · have := hedge _ her _ hm
        omega
      · omega
    · rcases List.mem_append.mp hv2 with h | h
      · obtain ⟨k, hk, hkv⟩ := List.mem_map.mp h
        have hkr := List.mem_range.mp hk
        have h1 : e * (p - 1) ≤ (m.edge.length - 1) * (p - 1) :=
          Nat.mul_le_mul_right _ (by omega)
        have h2 : (m.edge.length - 1) * (p - 1) + (p - 1) = m.edge.length * (p - 1) := by
          have h3 : m.edge.length - 1 + 1 = m.edge.length := by omega
          calc (m.edge.length - 1) * (p - 1) + (p - 1)
              = (m.edge.length - 1 + 1) * (p - 1) := by ring
            _ = m.edge.length * (p - 1) := by rw [h3]
        omega
      · have h' := List.mem_singleton.mp h
        rcases getl_mem_or_zero (m.edge.getD e []) 1 with hm | hz
        · have := hedge _ her _ hm
          omega
        · omega
  · rw [getD_nil_of_le _ _ (by simpa [edge_to_ipoint] using Nat.le_of_not_lt he)] at hv
    cases hv

theorem faceRowEdgeSeq_mem (m : HexMesh) (p f i v : ℕ)
    (hv : v ∈ faceRowEdgeSeq m p f i) :
    v ∈ (edge_to_ipoint m p).getD (getl (m.face2edge.getD f []) i) [] := by
  unfold faceRowEdgeSeq at hv
  dsimp only at hv
  split at hv
  · exact hv
  · exact List.mem_reverse.mp hv

theorem faceRowAfterEdges_mem (m : HexMesh) (p f k v : ℕ)
    (hv : v ∈ (faceRowAfterEdges m p f k).toList) :
    v = 0 ∨ ∃ i, i < k ∧ v ∈ faceRowEdgeSeq m p f i := by
  induction k with
  | zero =>
    left
    have : (faceRowAfterEdges m p f 0).toList = List.replicate ((p + 1) * (p + 1)) 0 := by
      show (Array.mkArray ((p + 1) * (p + 1)) 0).toList = _
      simp
    rw [this] at hv
    exact (List.eq_of_mem_replicate hv)
  | succ k ih =>
    rw [faceRowAfterEdges_succ, writeSeq_toList] at hv
    rcases mem_listWrite _ _ _ _ hv with h | h
    · rcases ih h with h0 | ⟨i, hik, hseq⟩
      · exact Or.inl h0
      · exact Or.inr ⟨i, by omega, hseq⟩
    · exact Or.inr ⟨k, by omega, h⟩

/-- Bound for the face point rows: every value is below `cellBase`. -/
theorem face_to_ipoint_mem_lt (m : HexMesh) (p : ℕ)
    (hedge : ∀ r ∈ m.edge, ∀ v ∈ r, v < m.node.length)
    (hNN : 0 < m.node.length) :
    ∀ f, ∀ v ∈ (face_to_ipoint m p).getD f [],
      v < m.node.length + m.edge.length * (p - 1)
        + m.face.length * ((p - 1) * (p - 1)) := by
  intro f v hv
  by_cases hf : f < m.face.length
  · unfold face_to_ipoint at hv
    rw [map_range_getD _ _ _ hf, writeSeq_toList] at hv
    rcases mem_listWrite _ _ _ _ hv with h | h
    · rcases faceRowAfterEdges_mem m p f 4 v h with h0 | ⟨i, _, hseq⟩
      · omega
      · have := edge_to_ipoint_mem_lt m p hedge hNN _ _ (faceRowEdgeSeq_mem _ _ _ _ _ hseq)
        omega
    · obtain ⟨t, ht, htv⟩ := List.mem_map.mp h
      have htr := List.mem_range.mp ht
      have h1 : f * ((p - 1) * (p - 1)) ≤ (m.face.length - 1) * ((p - 1) * (p - 1)) :=
        Nat.mul_le_mul_right _ (by omega)
      have h2 : (m.face.length - 1) * ((p - 1) * (p - 1)) + (p - 1) * (p - 1)
          = m.face.length * ((p - 1) * (p - 1)) := by
        have h3 : m.face.length - 1 + 1 = m.face.length := by omega
        calc (m.face.length - 1) * ((p - 1) * (p - 1)) + (p - 1) * (p - 1)
            = (m.face.length - 1 + 1) * ((p - 1) * (p - 1)) := by ring
          _ = m.face.length * ((p - 1) * (p - 1)) := by rw [h3]
      omega
  · rw [getD_nil_of_le _ _ (by simpa [face_to_ipoint] using Nat.le_of_not_lt hf)] at hv
    cases hv

/-- Bound for the per-slot values pulled from the face rows. -/
theorem cellSlotVal_lt (m : HexMesh) (p c i q : ℕ)
    (hedge : ∀ r ∈ m.edge, ∀ v ∈ r, v < m.node.length)
    (hNN : 0 < m.node.length) :
    cellSlotVal m p c i q < m.node.length + m.edge.length * (p - 1)
      + m.face.length * ((p - 1) * (p - 1)) := by
  unfold cellSlotVal
  dsimp only
  rcases getl_mem_or_zero ((face_to_ipoint m p).getD
      (getl (m.cell2face.getD c []) i) []) _ with hm | hz
  · exact face_to_ipoint_mem_lt m p hedge hNN _ _ hm
  · rw [hz]
    omega

theorem cellRowAfterFaces_mem (m : HexMesh) (p c k v : ℕ)
    (hv : v ∈ (cellRowAfterFaces m p c k).toList) :
    v = 0 ∨ ∃ i q, v = cellSlotVal m p c i q := by
  induction k with
  | zero =>
    left
    have : (cellRowAfterFaces m p c 0).toList
        = List.replicate ((p + 1) * (p + 1) * (p + 1)) 0 := by
      show (Array.mkArray ((p + 1) * (p + 1) * (p + 1)) 0).toList = _
      simp
    rw [this] at hv
    exact (List.eq_of_mem_replicate hv)
  | succ k ih =>
    rw [cellRowAfterFaces_succ, writeSeq_toList] at hv
    rcases mem_listWrite _ _ _ _ hv with h | h
    · exact ih h
    · obtain ⟨q, _, hqv⟩ := List.mem_map.mp h
      exact Or.inr ⟨k, q, hqv.symm⟩

/-- Bound conjunct of C2: every index in `cell_to_ipoint` is below the
total. -/
theorem cell_to_ipoint_mem_lt (m : HexMesh) (p : ℕ)
    (hedge : ∀ r ∈ m.edge, ∀ v ∈ r, v < m.node.length)
    (hNN : 0 < m.node.length) :
    ∀ v ∈ (cell_to_ipoint m p).flatten, v < totalIpoints m p := by
  intro v hv
  obtain ⟨row, hrow, hvrow⟩ := List.mem_flatten.mp hv
  unfold cell_to_ipoint at hrow
  obtain ⟨c, hc, rfl⟩ := List.mem_map.mp hrow
  have hcr := List.mem_range.mp hc
  rw [writeSeq_toList] at hvrow
  unfold totalIpoints cellBase faceBase edgeBase
  rcases mem_listWrite _ _ _ _ hvrow with h | h
  · rcases cellRowAfterFaces_mem m p c 6 v h with h0 | ⟨i, q, rfl⟩
    · omega
    · have := cellSlotVal_lt m p c i q hedge hNN
      omega
  · obtain ⟨t, ht, htv⟩ := List.mem_map.mp h
    have htr := List.mem_range.mp ht
    have h1 : c * ((p - 1) * (p - 1) * (p - 1))
        ≤ (m.cell.length - 1) * ((p - 1) * (p - 1) * (p - 1)) :=
      Nat.mul_le_mul_right _ (by omega)
    have h2 : (m.cell.length - 1) * ((p - 1) * (p - 1) * (p - 1))
        + (p - 1) * (p - 1) * (p - 1)
        = m.cell.length * ((p - 1) * (p - 1) * (p - 1)) := by
      have h3 : m.cell.length - 1 + 1 = m.cell.length := by omega
      calc (m.cell.length - 1) * ((p - 1) * (p - 1) * (p - 1))
          + (p - 1) * (p - 1) * (p - 1)
          = (m.cell.length - 1 + 1) * ((p - 1) * (p - 1) * (p - 1)) := by ring
        _ = m.cell.length * ((p - 1) * (p - 1) * (p - 1)) := by rw [h3]
    omega

theorem getD_mem_of_lt (l : List ℕ) (k : ℕ) (hk : k < l.length) :
    l.getD k 0 ∈ l := by
  rw [getD_eq_getElem _ _ hk]
  exact List.getElem_mem hk

theorem le_foldr_max (l : List ℕ) (x : ℕ) (hx : x ∈ l) : x ≤ l.foldr max 0 := by
  induction l with
  | nil => cases hx
  | cons y ys ih =>
    rcases List.mem_cons.mp hx with h | h
    · rw [h]
      exact Nat.le_max_left _ _
    · exact le_trans (ih h) (Nat.le_max_right _ _)

theorem foldr_max_lt (l : List ℕ) (B : ℕ) (hB : 0 < B)
    (h : ∀ x ∈ l, x < B) : l.foldr max 0 < B := by
  induction l with
  | nil => exact hB
  | cons y ys ih =>
    have h1 := h y (List.mem_cons_self _ _)
    have h2 := ih (fun x hx => h x (List.mem_cons_of_mem _ hx))
    simp only [List.foldr_cons]
    omega

/-- For `p ≥ 2` the very last cell-interior value `total - 1` is present
in the table of the last cell. -/
theorem cell_to_ipoint_top_mem (m : HexMesh) (p : ℕ) (hp : 2 ≤ p)
    (hNC : 0 < m.cell.length) :
    totalIpoints m p - 1 ∈ (cell_to_ipoint m p).flatten := by
  set c := m.cell.length - 1 with hcdef
  have hc : c < m.cell.length := by omega
  have hcube : 1 ≤ (p - 1) * (p - 1) * (p - 1) := by
    have : 1 ≤ p - 1 := by omega
    nlinarith
  set j := (p - 1) * (p - 1) * (p - 1) - 1 with hjdef
  have hj : j < (p - 1) * (p - 1) * (p - 1) := by omega
  have hjpos : j < (cellInterior p).length := by
    rw [cellInterior_length]
    exact hj
  have hjv : j < ((List.range ((p - 1) * (p - 1) * (p - 1))).map
      (fun t => m.node.length + m.edge.length * (p - 1)
        + m.face.length * ((p - 1) * (p - 1))
        + c * ((p - 1) * (p - 1) * (p - 1)) + t)).length := by
    simpa using hj
  have hmem : (cellInterior p).getD j 0 ∈ cellInterior p := by
    rw [getD_eq_getElem _ _ hjpos]
    exact List.getElem_mem hjpos
  have hlt := cellInterior_mem_lt p _ hmem
  have hrowmem : (fun c => (writeSeq (cellRowAfterFaces m p c 6) (cellInterior p)
      ((List.range ((p - 1) * (p - 1) * (p - 1))).map
        (fun t => m.node.length + m.edge.length * (p - 1)
          + m.face.length * ((p - 1) * (p - 1))
          + c * ((p - 1) * (p - 1) * (p - 1)) + t))).toList) c
      ∈ cell_to_ipoint m p := by
    unfold cell_to_ipoint
    exact List.mem_map.mpr ⟨c, List.mem_range.mpr hc, rfl⟩
  apply List.mem_flatten.mpr
  refine ⟨_, hrowmem, ?_⟩
  have hread : ((writeSeq (cellRowAfterFaces m p c 6) (cellInterior p)
      ((List.range ((p - 1) * (p - 1) * (p - 1))).map
        (fun t => m.node.length + m.edge.length * (p - 1)
          + m.face.length * ((p - 1) * (p - 1))
          + c * ((p - 1) * (p - 1) * (p - 1)) + t))).toList).getD
        ((cellInterior p).getD j 0) 0
      = m.node.length + m.edge.length * (p - 1)
        + m.face.length * ((p - 1) * (p - 1))
        + c * ((p - 1) * (p - 1) * (p - 1)) + j := by
    rw [writeSeq_toList,
      listWrite_getD_at _ _ _ j (cellInterior_nodup p) hjpos hjv
        (by rw [cellRowAfterFaces_toList_length]; exact hlt),
      map_range_getDN _ _ _ hj]
  have hval : m.node.length + m.edge.length * (p - 1)
      + m.face.length * ((p - 1) * (p - 1))
      + c * ((p - 1) * (p - 1) * (p - 1)) + j = totalIpoints m p - 1 := by
    unfold totalIpoints cellBase faceBase edgeBase
    have h2 : c * ((p - 1) * (p - 1) * (p - 1)) + (p - 1) * (p - 1) * (p - 1)
        = m.cell.length * ((p - 1) * (p - 1) * (p - 1)) := by
      have h3 : c + 1 = m.cell.length := by omega
      calc c * ((p - 1) * (p - 1) * (p - 1)) + (p - 1) * (p - 1) * (p - 1)
          = (c + 1) * ((p - 1) * (p - 1) * (p - 1)) := by ring
        _ = m.cell.length * ((p - 1) * (p - 1) * (p - 1)) := by rw [h3]
    omega
  have hlen : ((writeSeq (cellRowAfterFaces m p c 6) (cellInterior p)
      ((List.range ((p - 1) * (p - 1) * (p - 1))).map
        (fun t => m.node.length + m.edge.length * (p - 1)
          + m.face.length * ((p - 1) * (p - 1))
          + c * ((p - 1) * (p - 1) * (p - 1)) + t))).toList).length
      = (p + 1) * (p + 1) * (p + 1) := by
    rw [writeSeq_toList, listWrite_length, cellRowAfterFaces_toList_length]
  rw [← hval, ← hread]
  exact getD_mem_of_lt _ _ (by rw [hlen]; exact hlt)

/-! ### Generic first-sight de-duplication -/

/-- First-sight de-duplication by an arbitrary key. -/
def dedupG {α : Type} (key : α → List ℕ) (ls : List α) : List α :=
  ls.foldl
    (fun acc x => if acc.any (fun z => key z = key x) then acc else acc ++ [x])
    []

theorem dedupByKey_eq_dedupG (ls : List (List ℕ)) :
    dedupByKey ls = dedupG sortKey ls := rfl

theorem dedupTriples_eq_dedupG (ls : List (List ℕ × ℕ × ℕ)) :
    dedupTriples ls = dedupG (fun t => sortKey t.1) ls := rfl

theorem foldl_dedupG_acc_sub {α : Type} (key : α → List ℕ) (ls acc : List α)
    (y : α) (hy : y ∈ acc) :
    y ∈ ls.foldl
      (fun acc x => if acc.any (fun z => key z = key x) then acc else acc ++ [x])
      acc := by
  induction ls generalizing acc with
  | nil => exact hy
  | cons x xs ih =>
    apply ih
    by_cases hc : (acc.any (fun z => key z = key x)) = true
    · show y ∈ (if acc.any (fun z => key z = key x) then acc else acc ++ [x])
      rw [if_pos hc]
      exact hy
    · show y ∈ (if acc.any (fun z => key z = key x) then acc else acc ++ [x])
      rw [if_neg hc]
      exact List.mem_append_left _ hy

theorem foldl_dedupG_mem {α : Type} (key : α → List ℕ) (ls acc : List α) (y : α)
    (hy : y ∈ ls.foldl
      (fun acc x => if acc.any (fun z => key z = key x) then acc else acc ++ [x])
      acc) :
    y ∈ acc ∨ y ∈ ls := by
  induction ls generalizing acc with
  | nil => exact Or.inl hy
  | cons x xs ih =>
    rcases ih _ hy with h | h
    · have h' : y ∈ (if acc.any (fun z => key z = key x)
          then acc else acc ++ [x]) := h
      by_cases hc : (acc.any (fun z => key z = key x)) = true
      · rw [if_pos hc] at h'
        exact Or.inl h'
      · rw [if_neg hc] at h'
        rcases List.mem_append.mp h' with h'' | h''
        · exact Or.inl h''
        · right
          simp only [List.mem_singleton] at h''
          exact h'' ▸ List.mem_cons_self _ _
    · exact Or.inr (List.mem_cons_of_mem _ h)

theorem mem_dedupG {α : Type} (key : α → List ℕ) (ls : List α) (y : α)
    (hy : y ∈ dedupG key ls) : y ∈ ls := by
  rcases foldl_dedupG_mem key ls [] y hy with h | h
  · cases h
  · exact h

theorem foldl_dedupG_covered {α : Type} (key : α → List ℕ) (ls acc : List α)
    (x : α) (hx : x ∈ ls) :
    ∃ y ∈ ls.foldl
      (fun acc x => if acc.any (fun z => key z = key x) then acc else acc ++ [x])
      acc, key y = key x := by
  induction ls generalizing acc with
  | nil => cases hx
  | cons z zs ih =>
    rw [List.foldl_cons]
    rcases List.mem_cons.mp hx with h | h
    · subst h
      by_cases hc : (acc.any (fun z' => key z' = key x)) = true
      · obtain ⟨y, hy, hky⟩ := List.any_eq_true.mp hc
        refine ⟨y, foldl_dedupG_acc_sub key zs _ y ?_, by simpa using hky⟩
        show y ∈ (if acc.any (fun z' => key z' = key x) then acc else acc ++ [x])
        rw [if_pos hc]
        exact hy
      · refine ⟨x, foldl_dedupG_acc_sub key zs _ x ?_, rfl⟩
        show x ∈ (if acc.any (fun z' => key z' = key x) then acc else acc ++ [x])
        rw [if_neg hc]
        exact List.mem_append_right _ (List.mem_singleton.mpr rfl)
    · exact ih _ h

theorem dedupG_covered {α : Type} (key : α → List ℕ) (ls : List α) (x : α)
    (hx : x ∈ ls) : ∃ y ∈ dedupG key ls, key y = key x :=
  foldl_dedupG_covered key ls [] x hx

theorem any_map_het {α β : Type} (f : α → β) (p : β → Bool) (l : List α) :
    (l.map f).any p = l.any (fun a => p (f a)) := by
  induction l with
  | nil => rfl
  | cons x xs ih => simp [List.any_cons, ih]

theorem dedupG_map_fst {α β : Type} (f : α → β) (key : β → List ℕ)
    (ls : List α) :
    (dedupG (fun a => key (f a)) ls).map f = dedupG key (ls.map f) := by
  suffices h : ∀ acc : List α,
      (ls.foldl (fun acc x => if acc.any (fun z => key (f z) = key (f x))
        then acc else acc ++ [x]) acc).map f
      = (ls.map f).foldl (fun acc x => if acc.any (fun z => key z = key x)
        then acc else acc ++ [x]) (acc.map f) by
    exact h []
  induction ls with
  | nil => intro acc; rfl
  | cons x xs ih =>
    intro acc
    rw [List.map_cons, List.foldl_cons, List.foldl_cons]
    have hany : ((acc.map f).any (fun z => key z = key (f x)))
        = (acc.any (fun z => key (f z) = key (f x))) := by
      rw [any_map_het]
    have hstep : (if acc.any (fun z => key (f z) = key (f x))
          then acc else acc ++ [x]).map f
        = (if (acc.map f).any (fun z => key z = key (f x))
          then acc.map f else acc.map f ++ [f x]) := by
      by_cases hc : (acc.any (fun z => key (f z) = key (f x))) = true
      · rw [if_pos hc, if_pos (by rw [hany]; exact hc)]
      · rw [if_neg hc, if_neg (by rw [hany]; exact hc)]
        simp
    rw [← hstep]
    exact ih _

/-- Generic: reading a list back positionally reproduces it. -/
theorem map_getD_range {α : Type} (l : List α) (d : α) :
    (List.range l.length).map (fun i => l.getD i d) = l := by
  apply List.ext_getElem
  · simp
  · intro j h1 h2
    simp only [List.getElem_map, List.getElem_range]
    rw [getD_eq_getElem' _ _ _ h2]

/-- The two presentations of the canonical face table coincide. -/
theorem buildFaces_eq_ofT (cells : List (List ℕ)) :
    buildFaces cells = buildFacesOfT cells := by
  unfold buildFaces buildFacesOfT buildFacesT
  rw [dedupByKey_eq_dedupG, dedupTriples_eq_dedupG]
  have h1 : (dedupG (fun t : List ℕ × ℕ × ℕ => sortKey t.1) (faceTriples cells)).map
      (fun t => t.1) = dedupG sortKey ((faceTriples cells).map (fun t => t.1)) :=
    dedupG_map_fst (fun t => t.1) sortKey (faceTriples cells)
  rw [h1]
  congr 1
  unfold faceTriples
  rw [List.map_flatMap]
  have h2 : cells.flatMap cellFaces
      = ((List.range cells.length).map (fun c => cells.getD c [])).flatMap cellFaces := by
    rw [show (List.range cells.length).map (fun c => cells.getD c [])
      = cells from map_getD_range cells []]
  rw [h2, List.flatMap_map]
  apply List.flatMap_congr ?_
  intro c _
  rw [List.map_map]
  have h3 : (cellFaces (cells.getD c [])).length = 6 := by
    unfold cellFaces localFace
    simp
  calc (List.range 6).map ((fun t : List ℕ × ℕ × ℕ => t.1)
        ∘ (fun i => ((cellFaces (cells.getD c [])).getD i [], c, i)))
      = (List.range 6).map (fun i => (cellFaces (cells.getD c [])).getD i []) := rfl
    _ = (List.range (cellFaces (cells.getD c [])).length).map
        (fun i => (cellFaces (cells.getD c [])).getD i []) := by rw [h3]
    _ = cellFaces (cells.getD c []) := map_getD_range _ _

/-! ### Correctness of the double-argsort matching -/

/-- The lexicographic order on (value, original index) pairs realized by
`insertPair` (the stability tie-break of `np.argsort`). -/
def lexLe (x y : ℕ × ℕ) : Prop := x.1 < y.1 ∨ (x.1 = y.1 ∧ x.2 ≤ y.2)

instance : DecidableRel lexLe := fun x y => by
  unfold lexLe
  infer_instance

instance : IsTotal (ℕ × ℕ) lexLe :=
  ⟨by
    intro a b
    obtain ⟨a1, a2⟩ := a
    obtain ⟨b1, b2⟩ := b
    unfold lexLe
    simp only []
    omega⟩

instance : IsTrans (ℕ × ℕ) lexLe :=
  ⟨by
    intro a b c hab hbc
    obtain ⟨a1, a2⟩ := a
    obtain ⟨b1, b2⟩ := b
    obtain ⟨c1, c2⟩ := c
    unfold lexLe at hab hbc ⊢
    simp only [] at hab hbc ⊢
    omega⟩

instance : IsAntisymm (ℕ × ℕ) lexLe :=
  ⟨by
    intro a b hab hba
    obtain ⟨a1, a2⟩ := a
    obtain ⟨b1, b2⟩ := b
    unfold lexLe at hab hba
    simp only [] at hab hba
    have h1 : a1 = b1 := by omega
    have h2 : a2 = b2 := by omega
    rw [h1, h2]⟩

theorem insertPair_eq_orderedInsert (x : ℕ × ℕ) (l : List (ℕ × ℕ)) :
    insertPair x l = List.orderedInsert lexLe x l := by
  induction l with
  | nil => rfl
  | cons y ys ih =>
    show (if x.1 < y.1 ∨ (x.1 = y.1 ∧ x.2 ≤ y.2) then x :: y :: ys
      else y :: insertPair x ys) = _
    unfold List.orderedInsert
    by_cases h : lexLe x y
    · rw [if_pos h, if_pos (show x.1 < y.1 ∨ (x.1 = y.1 ∧ x.2 ≤ y.2) from h)]
    · rw [if_neg h, if_neg (show ¬(x.1 < y.1 ∨ (x.1 = y.1 ∧ x.2 ≤ y.2)) from h), ih]

theorem sortPairs_eq (l : List (ℕ × ℕ)) :
    sortPairs l = List.insertionSort lexLe l := by
  induction l with
  | nil => rfl
  | cons x xs ih =>
    show insertPair x (sortPairs xs) = _
    rw [ih, insertPair_eq_orderedInsert]
    rfl

theorem sortPairs_perm (l : List (ℕ × ℕ)) : (sortPairs l).Perm l := by
  rw [sortPairs_eq]
  exact List.perm_insertionSort _ _

theorem sortPairs_sorted (l : List (ℕ × ℕ)) :
    List.Sorted lexLe (sortPairs l) := by
  rw [sortPairs_eq]
  exact List.sorted_insertionSort _ _

theorem mem_pairs (l : List ℕ) (pr : ℕ × ℕ)
    (h : pr ∈ l.zip (List.range l.length)) :
    pr.2 < l.length ∧ pr.1 = l.getD pr.2 0 := by
  obtain ⟨i, hi, heq⟩ := List.mem_iff_getElem.mp h
  have hi' : i < l.length := by simpa using hi
  rw [List.getElem_zip] at heq
  have h2 : pr.2 = i := by
    rw [← heq]
    simp
  have h1 : pr.1 = l[i] := by
    rw [← heq]
  constructor
  · rw [h2]
    exact hi'
  · rw [h1, h2, getD_eq_getElem _ _ hi']

theorem argsort_length (l : List ℕ) : (argsort l).length = l.length := by
  unfold argsort
  rw [List.length_map, (sortPairs_perm _).length_eq]
  simp

theorem argsort_perm_range (l : List ℕ) :
    (argsort l).Perm (List.range l.length) := by
  unfold argsort
  have h2 := (sortPairs_perm (l.zip (List.range l.length))).map Prod.snd
  rw [List.map_snd_zip _ _ (by simp)] at h2
  exact h2

theorem argsort_mem_lt (l : List ℕ) (x : ℕ) (hx : x ∈ argsort l) :
    x < l.length :=
  List.mem_range.mp ((argsort_perm_range l).mem_iff.mp hx)

theorem sortKey_perm (l : List ℕ) : (sortKey l).Perm l := by
  unfold sortKey
  have h2 := (sortPairs_perm (l.zip (List.range l.length))).map Prod.fst
  rw [List.map_fst_zip _ _ (by simp)] at h2
  exact h2

theorem sortKey_sorted (l : List ℕ) : List.Sorted (· ≤ ·) (sortKey l) := by
  unfold sortKey
  refine List.Pairwise.map _ ?_ (sortPairs_sorted _)
  intro a b hab
  obtain ⟨a1, a2⟩ := a
  obtain ⟨b1, b2⟩ := b
  unfold lexLe at hab
  simp only [] at hab ⊢
  omega

theorem sortKey_eq_of_perm (l l' : List ℕ) (h : l.Perm l') :
    sortKey l = sortKey l' :=
  List.eq_of_perm_of_sorted (((sortKey_perm l).trans h).trans (sortKey_perm l').symm)
    (sortKey_sorted l) (sortKey_sorted l')

theorem getD_argsort (l : List ℕ) (r : ℕ) (hr : r < l.length) :
    l.getD ((argsort l).getD r 0) 0 = (sortKey l).getD r 0 := by
  unfold argsort sortKey
  have hSlen : (sortPairs (l.zip (List.range l.length))).length = l.length := by
    rw [(sortPairs_perm _).length_eq]
    simp
  have hr' : r < (sortPairs (l.zip (List.range l.length))).length := by omega
  have hmem : (sortPairs (l.zip (List.range l.length)))[r]
      ∈ sortPairs (l.zip (List.range l.length)) := List.getElem_mem hr'
  have hprop := mem_pairs l _ ((sortPairs_perm _).mem_iff.mp hmem)
  have hmap1 : (List.map Prod.snd (sortPairs (l.zip (List.range l.length)))).getD r 0
      = (sortPairs (l.zip (List.range l.length)))[r].2 := by
    rw [getD_eq_getElem _ _ (by simpa using hr'), List.getElem_map]
  have hmap2 : (List.map Prod.fst (sortPairs (l.zip (List.range l.length)))).getD r 0
      = (sortPairs (l.zip (List.range l.length)))[r].1 := by
    rw [getD_eq_getElem _ _ (by simpa using hr'), List.getElem_map]
  rw [hmap1, hmap2]
  exact hprop.2.symm

theorem sortKey_of_perm_range (s : List ℕ) (n : ℕ)
    (h : s.Perm (List.range n)) : sortKey s = List.range n :=
  List.eq_of_perm_of_sorted ((sortKey_perm s).trans h)
    (sortKey_sorted s) (List.sorted_le_range n)

theorem argsort_of_perm_range (s : List ℕ) (n : ℕ)
    (hs : s.Perm (List.range n)) (j : ℕ) (hj : j < n) :
    (argsort s).getD j 0 = List.indexOf j s := by
  have hslen : s.length = n := by
    rw [hs.length_eq]
    simp
  have hnd : s.Nodup := hs.nodup_iff.mpr (List.nodup_range _)
  have hposmem : (argsort s).getD j 0 ∈ argsort s :=
    getD_mem_of_lt _ _ (by rw [argsort_length]; omega)
  have hpos : (argsort s).getD j 0 < s.length := argsort_mem_lt s _ hposmem
  have hkey : s.getD ((argsort s).getD j 0) 0 = j := by
    rw [getD_argsort s j (by omega), sortKey_of_perm_range s n hs,
      getD_eq_getElem _ _ (by simpa using hj)]
    simp
  have hel : s[(argsort s).getD j 0] = j := by
    rw [← getD_eq_getElem _ _ hpos]
    exact hkey
  calc (argsort s).getD j 0
      = List.indexOf s[(argsort s).getD j 0] s :=
        (List.indexOf_getElem hnd _ hpos).symm
    _ = List.indexOf j s := by rw [hel]

/-- The key fact behind the orientation matching: for two lists with the
same distinct entries, the composed double argsort sends slot `j` to the
position of `lfe[j]` inside `gfe`. -/
theorem argsort_matching (gfe lfe : List ℕ) (n : ℕ)
    (hl : lfe.length = n) (hperm : lfe.Perm gfe) (hnd : gfe.Nodup)
    (j : ℕ) (hj : j < n) :
    (argsort gfe).getD ((argsort (argsort lfe)).getD j 0) 0
      = List.indexOf (lfe.getD j 0) gfe := by
  have hg : gfe.length = n := by rw [← hperm.length_eq, hl]
  have hsperm : (argsort lfe).Perm (List.range n) := by
    rw [← hl]
    exact argsort_perm_range lfe
  have h1 : (argsort (argsort lfe)).getD j 0 = List.indexOf j (argsort lfe) :=
    argsort_of_perm_range (argsort lfe) n hsperm j hj
  have hjInS : j ∈ argsort lfe := hsperm.mem_iff.mpr (List.mem_range.mpr hj)
  have hrlt : List.indexOf j (argsort lfe) < (argsort lfe).length :=
    List.indexOf_lt_length.mpr hjInS
  have hslen : (argsort lfe).length = n := by rw [argsort_length, hl]
  have hsr : (argsort lfe)[List.indexOf j (argsort lfe)] = j :=
    List.getElem_indexOf hrlt
  have hval : gfe.getD ((argsort gfe).getD (List.indexOf j (argsort lfe)) 0) 0
      = lfe.getD j 0 := by
    rw [getD_argsort gfe _ (by omega),
      sortKey_eq_of_perm gfe lfe hperm.symm,
      ← getD_argsort lfe _ (by omega),
      getD_eq_getElem _ _ hrlt, hsr]
  have hposmem : (argsort gfe).getD (List.indexOf j (argsort lfe)) 0 ∈ argsort gfe :=
    getD_mem_of_lt _ _ (by rw [argsort_length]; omega)
  have hposlt : (argsort gfe).getD (List.indexOf j (argsort lfe)) 0 < gfe.length :=
    argsort_mem_lt gfe _ hposmem
  have hel : gfe[(argsort gfe).getD (List.indexOf j (argsort lfe)) 0]
      = lfe.getD j 0 := by
    rw [← getD_eq_getElem _ _ hposlt]
    exact hval
  rw [h1]
  calc (argsort gfe).getD (List.indexOf j (argsort lfe)) 0
      = List.indexOf gfe[(argsort gfe).getD (List.indexOf j (argsort lfe)) 0] gfe :=
        (List.indexOf_getElem hnd _ hposlt).symm
    _ = List.indexOf (lfe.getD j 0) gfe := by rw [hel]

/-! ### Structural facts about the derived tables -/

theorem faceTriples_spec (cells : List (List ℕ)) (t : List ℕ × ℕ × ℕ)
    (ht : t ∈ faceTriples cells) :
    t.2.1 < cells.length ∧ t.2.2 < 6 ∧
      t.1 = (cellFaces (cells.getD t.2.1 [])).getD t.2.2 [] := by
  unfold faceTriples at ht
  obtain ⟨c, hc, ht2⟩ := List.mem_flatMap.mp ht
  obtain ⟨i, hi, ht3⟩ := List.mem_map.mp ht2
  rw [← ht3]
  exact ⟨List.mem_range.mp hc, List.mem_range.mp hi, rfl⟩

theorem buildFacesT_length (cells : List (List ℕ)) :
    (buildFacesT cells).length = (buildFaces cells).length := by
  rw [buildFaces_eq_ofT]
  unfold buildFacesOfT
  rw [List.length_map]

theorem indexByKey_lt (tab : List (List ℕ)) (x : List ℕ)
    (h : ∃ y ∈ tab, sortKey y = sortKey x) :
    indexByKey tab x < tab.length := by
  unfold indexByKey
  apply List.findIdx_lt_length_of_exists
  obtain ⟨y, hy, hk⟩ := h
  exact ⟨y, hy, by simpa using hk⟩

theorem indexByKey_key (tab : List (List ℕ)) (x : List ℕ)
    (h : ∃ y ∈ tab, sortKey y = sortKey x) :
    sortKey (tab.getD (indexByKey tab x) []) = sortKey x := by
  have hlt := indexByKey_lt tab x h
  have hsat := @List.findIdx_getElem _
    (fun y => decide (sortKey y = sortKey x)) tab hlt
  rw [getD_eq_getElem' _ _ _ hlt]
  simpa using hsat

theorem buildEdges_key (cells : List (List ℕ)) (x : List ℕ)
    (hx : x ∈ cells.flatMap cellEdges) :
    sortKey ((buildEdges cells).getD (indexByKey (buildEdges cells) x) [])
      = sortKey x := by
  apply indexByKey_key
  have := dedupG_covered sortKey (cells.flatMap cellEdges) x hx
  rw [show dedupG sortKey (cells.flatMap cellEdges) = buildEdges cells from rfl] at this
  exact this

theorem buildEdges_idx_lt (cells : List (List ℕ)) (x : List ℕ)
    (hx : x ∈ cells.flatMap cellEdges) :
    indexByKey (buildEdges cells) x < (buildEdges cells).length := by
  apply indexByKey_lt
  have := dedupG_covered sortKey (cells.flatMap cellEdges) x hx
  rw [show dedupG sortKey (cells.flatMap cellEdges) = buildEdges cells from rfl] at this
  exact this

theorem buildFaces_key (cells : List (List ℕ)) (x : List ℕ)
    (hx : x ∈ cells.flatMap cellFaces) :
    sortKey ((buildFaces cells).getD (indexByKey (buildFaces cells) x) [])
      = sortKey x := by
  apply indexByKey_key
  have := dedupG_covered sortKey (cells.flatMap cellFaces) x hx
  rw [show dedupG sortKey (cells.flatMap cellFaces) = buildFaces cells from rfl] at this
  exact this

theorem buildFaces_idx_lt (cells : List (List ℕ)) (x : List ℕ)
    (hx : x ∈ cells.flatMap cellFaces) :
    indexByKey (buildFaces cells) x < (buildFaces cells).length := by
  apply indexByKey_lt
  have := dedupG_covered sortKey (cells.flatMap cellFaces) x hx
  rw [show dedupG sortKey (cells.flatMap cellFaces) = buildFaces cells from rfl] at this
  exact this

theorem cellEdges_length (c : List ℕ) : (cellEdges c).length = 12 := by
  unfold cellEdges localEdge
  simp

theorem cellFaces_length (c : List ℕ) : (cellFaces c).length = 6 := by
  unfold cellFaces localFace
  simp

theorem buildCell2edge_row (cells : List (List ℕ)) (ci : ℕ)
    (hci : ci < cells.length) :
    (buildCell2edge cells).getD ci []
      = (cellEdges (cells.getD ci [])).map (indexByKey (buildEdges cells)) := by
  unfold buildCell2edge
  rw [getD_eq_getElem' _ _ _ (by simpa using hci), List.getElem_map,
    getD_eq_getElem' _ _ _ hci]

theorem buildCell2face_row (cells : List (List ℕ)) (ci : ℕ)
    (hci : ci < cells.length) :
    (buildCell2face cells).getD ci []
      = (cellFaces (cells.getD ci [])).map (indexByKey (buildFaces cells)) := by
  unfold buildCell2face
  rw [getD_eq_getElem' _ _ _ (by simpa using hci), List.getElem_map,
    getD_eq_getElem' _ _ _ hci]

theorem getl_map_getD (f : List ℕ → ℕ) (l : List (List ℕ)) (k : ℕ)
    (hk : k < l.length) :
    getl (l.map f) k = f (l.getD k []) := by
  unfold getl
  rw [getD_eq_getElem _ _ (by simpa using hk), List.getElem_map,
    getD_eq_getElem' _ _ _ hk]

theorem sortKey_pair_comm (u v : ℕ) : sortKey [u, v] = sortKey [v, u] :=
  sortKey_eq_of_perm _ _ (List.Perm.swap v u [])

theorem buildFace2edge_row (cells : List (List ℕ)) (fi : ℕ)
    (hfi : fi < (buildFacesT cells).length) :
    (buildFace2edge cells).getD fi []
      = (localFace2edge.getD ((buildFacesT cells)[fi]).2.2 []).map
          (getl ((buildCell2edge cells).getD ((buildFacesT cells)[fi]).2.1 [])) := by
  unfold buildFace2edge
  rw [getD_eq_getElem' _ _ _ (by simpa using hfi), List.getElem_map]

theorem buildFaces_row_of_T (cells : List (List ℕ)) (fi : ℕ)
    (hfi : fi < (buildFacesT cells).length) :
    (buildFaces cells).getD fi [] = ((buildFacesT cells)[fi]).1 := by
  rw [buildFaces_eq_ofT]
  unfold buildFacesOfT
  rw [getD_eq_getElem' _ _ _ (by simpa using hfi), List.getElem_map]

/-- The central builder coherence fact: the `j`-th edge of face `fi`
joins the face's vertices `j` and `j+1` (as a sorted key of node
indices). -/
theorem face_edge_key (cells : List (List ℕ)) (fi j : ℕ)
    (hfi : fi < (buildFacesT cells).length) (hj : j < 4) :
    sortKey ((buildEdges cells).getD
        (getl ((buildFace2edge cells).getD fi []) j) [])
      = sortKey [getl ((buildFaces cells).getD fi []) j,
          getl ((buildFaces cells).getD fi []) ((j + 1) % 4)] := by
  have htmem : (buildFacesT cells)[fi] ∈ buildFacesT cells := List.getElem_mem hfi
  have htf := faceTriples_spec cells _
    (mem_dedupG _ _ _ (by rw [← dedupTriples_eq_dedupG]; exact htmem))
  obtain ⟨hc, hi6, ht1⟩ := htf
  rw [buildFaces_row_of_T cells fi hfi, buildFace2edge_row cells fi hfi, ht1]
  rw [buildCell2edge_row cells _ hc]
  set cc := cells.getD ((buildFacesT cells)[fi]).2.1 [] with hcc
  have hccmem : cc ∈ cells := by
    rw [hcc, getD_eq_getElem' _ _ _ hc]
    exact List.getElem_mem hc
  set i := ((buildFacesT cells)[fi]).2.2 with hi
  have hkey : ∀ eloc, eloc < 12 →
      sortKey ((buildEdges cells).getD
        (getl ((cellEdges cc).map (indexByKey (buildEdges cells))) eloc) [])
      = sortKey ((cellEdges cc).getD eloc []) := by
    intro eloc heloc
    rw [getl_map_getD _ _ _ (by rw [cellEdges_length]; omega)]
    apply buildEdges_key
    apply List.mem_flatMap.mpr
    refine ⟨cc, hccmem, ?_⟩
    apply getD_mem_of_lt'
    rw [cellEdges_length]
    omega
  interval_cases i
  · interval_cases j
    · exact (hkey 3 (by omega)).trans rfl
    · exact (hkey 2 (by omega)).trans (sortKey_pair_comm _ _)
    · exact (hkey 1 (by omega)).trans (sortKey_pair_comm _ _)
    · exact (hkey 0 (by omega)).trans (sortKey_pair_comm _ _)
  · interval_cases j
    · exact (hkey 8 (by omega)).trans rfl
    · exact (hkey 9 (by omega)).trans rfl
    · exact (hkey 10 (by omega)).trans rfl
    · exact (hkey 11 (by omega)).trans (sortKey_pair_comm _ _)
  · interval_cases j
    · exact (hkey 4 (by omega)).trans rfl
    · exact (hkey 11 (by omega)).trans rfl
    · exact (hkey 7 (by omega)).trans (sortKey_pair_comm _ _)
    · exact (hkey 3 (by omega)).trans (sortKey_pair_comm _ _)
  · interval_cases j
    · exact (hkey 1 (by omega)).trans rfl
    · exact (hkey 6 (by omega)).trans rfl
    · exact (hkey 9 (by omega)).trans (sortKey_pair_comm _ _)
    · exact (hkey 5 (by omega)).trans (sortKey_pair_comm _ _)
  · interval_cases j
    · exact (hkey 0 (by omega)).trans rfl
    · exact (hkey 5 (by omega)).trans rfl
    · exact (hkey 8 (by omega)).trans (sortKey_pair_comm _ _)
    · exact (hkey 4 (by omega)).trans (sortKey_pair_comm _ _)
  · interval_cases j
    · exact (hkey 2 (by omega)).trans rfl
    · exact (hkey 7 (by omega)).trans rfl
    · exact (hkey 10 (by omega)).trans (sortKey_pair_comm _ _)
    · exact (hkey 6 (by omega)).trans (sortKey_pair_comm _ _)

/-! ### The p = 1 structure of the numbering (claim C2) -/

theorem buildMesh_node (node : List (List ℤ)) (cells : List (List ℕ)) :
    (buildMesh node cells).node = node := rfl

theorem buildMesh_cell (node : List (List ℤ)) (cells : List (List ℕ)) :
    (buildMesh node cells).cell = cells := rfl

theorem buildMesh_edge (node : List (List ℤ)) (cells : List (List ℕ)) :
    (buildMesh node cells).edge = buildEdges cells := rfl

theorem buildMesh_face (node : List (List ℤ)) (cells : List (List ℕ)) :
    (buildMesh node cells).face = buildFaces cells := rfl

theorem buildMesh_cell2edge (node : List (List ℤ)) (cells : List (List ℕ)) :
    (buildMesh node cells).cell2edge = buildCell2edge cells := rfl

theorem buildMesh_cell2face (node : List (List ℤ)) (cells : List (List ℕ)) :
    (buildMesh node cells).cell2face = buildCell2face cells := rfl

theorem buildMesh_face2edge (node : List (List ℤ)) (cells : List (List ℕ)) :
    (buildMesh node cells).face2edge = buildFace2edge cells := rfl

theorem getl_map (l : List ℕ) (f : ℕ → ℕ) (j : ℕ) (hj : j < l.length) :
    getl (l.map f) j = f (getl l j) := by
  unfold getl
  rw [getD_eq_getElem _ _ (by simpa using hj), List.getElem_map,
    getD_eq_getElem _ _ hj]

theorem writeSeq_nil_vals (arr : Array ℕ) (pos : List ℕ) :
    writeSeq arr pos [] = arr := by
  cases pos <;> rfl

theorem writeSeq_eq_of_vals_nil (arr : Array ℕ) (pos vals : List ℕ)
    (h : vals = []) : writeSeq arr pos vals = arr := by
  rw [h, writeSeq_nil_vals]

theorem perm_of_sortKey_eq (l l' : List ℕ) (h : sortKey l = sortKey l') :
    l.Perm l' := by
  have h1 := (sortKey_perm l).symm
  rw [h] at h1
  exact h1.trans (sortKey_perm l')

theorem perm_pair_eq (l : List ℕ) (x y : ℕ) (h : l.Perm [x, y]) :
    l = [x, y] ∨ l = [y, x] := by
  have hlen : l.length = 2 := by rw [h.length_eq]; rfl
  cases l with
  | nil => simp at hlen
  | cons a t =>
    cases t with
    | nil => simp at hlen
    | cons b t2 =>
      cases t2 with
      | cons c t3 => simp at hlen
      | nil =>
        have ha : a ∈ [x, y] := h.mem_iff.mp (List.mem_cons_self _ _)
        rcases List.mem_cons.mp ha with h1 | h1
        · left
          rw [h1] at h ⊢
          have h2 : [b].Perm [y] := h.cons_inv
          have h3 : [b] = [y] := List.perm_singleton.mp h2
          rw [h3]
        · have h1' : a = y := List.mem_singleton.mp h1
          right
          have hsw : List.Perm [x, y] [y, x] := List.Perm.swap y x []
          have h2 : List.Perm [a, b] [y, x] := h.trans hsw
          rw [h1'] at h2 ⊢
          have h3 : [b] = [x] := List.perm_singleton.mp h2.cons_inv
          rw [h3]

theorem sortKey_pair_cases (u v x y : ℕ) (h : sortKey [u, v] = sortKey [x, y]) :
    (u = x ∧ v = y) ∨ (u = y ∧ v = x) := by
  rcases perm_pair_eq _ _ _ (perm_of_sortKey_eq _ _ h) with h' | h'
  · left
    have h1 : u = x := by injection h'
    have h2 : [v] = [y] := by injection h'
    have h3 : v = y := by injection h2
    exact ⟨h1, h3⟩
  · right
    have h1 : u = y := by injection h'
    have h2 : [v] = [x] := by injection h'
    have h3 : v = x := by injection h2
    exact ⟨h1, h3⟩

theorem key_pair_ne (K : ℕ → List ℕ) (ga gb pa qa pb qb : ℕ)
    (hka : K ga = sortKey [pa, qa]) (hkb : K gb = sortKey [pb, qb])
    (hd : ¬ ((pa = pb ∧ qa = qb) ∨ (pa = qb ∧ qa = pb))) : ga ≠ gb := by
  intro h
  rw [h, hkb] at hka
  exact hd (sortKey_pair_cases _ _ _ _ hka.symm)

theorem nodup_four (a b c d : ℕ) (h1 : a ≠ b) (h2 : a ≠ c) (h3 : a ≠ d)
    (h4 : b ≠ c) (h5 : b ≠ d) (h6 : c ≠ d) : ([a, b, c, d] : List ℕ).Nodup := by
  simp only [List.nodup_cons, List.mem_cons, List.mem_singleton,
    List.not_mem_nil, or_false, List.nodup_nil, and_true, not_false_eq_true]
  omega

theorem getl_inj_of_nodup (l : List ℕ) (hnd : l.Nodup) (a b : ℕ)
    (ha : a < l.length) (hb : b < l.length) (h : getl l a = getl l b) :
    a = b := by
  rw [getl, getl, getD_eq_getElem _ _ ha, getD_eq_getElem _ _ hb] at h
  calc a = List.indexOf l[a] l := (List.indexOf_getElem hnd a ha).symm
    _ = List.indexOf l[b] l := by rw [h]
    _ = b := List.indexOf_getElem hnd b hb

theorem getl_ne_of_nodup (l : List ℕ) (hnd : l.Nodup) (a b : ℕ)
    (ha : a < l.length) (hb : b < l.length) (hab : a ≠ b) :
    getl l a ≠ getl l b :=
  fun h => hab (getl_inj_of_nodup l hnd a b ha hb h)

theorem localFace_facts :
    ∀ g ∈ localFace, g.length = 4 ∧ g.Nodup ∧ ∀ x ∈ g, x < 8 := by decide

/-- Under a valid input every canonical face row is a list of four
pairwise-distinct node indices. -/
theorem buildFaces_row_props (node : List (List ℤ)) (cells : List (List ℕ))
    (hv : ValidInput node cells) (fi : ℕ)
    (hfi : fi < (buildFaces cells).length) :
    ((buildFaces cells).getD fi []).length = 4
      ∧ ((buildFaces cells).getD fi []).Nodup := by
  have hmem : (buildFaces cells).getD fi [] ∈ buildFaces cells :=
    getD_mem_of_lt' _ _ _ hfi
  obtain ⟨c, hc, hrc⟩ := mem_buildFaces cells _ hmem
  obtain ⟨f, hf, heq⟩ := List.mem_map.mp hrc
  have hclen := hv.cell_len c hc
  have hcnd := hv.cell_nodup c hc
  obtain ⟨hflen, hfnd, hflt⟩ := localFace_facts f hf
  rw [show (buildFaces cells).getD fi [] = f.map (getl c) from heq.symm]
  constructor
  · rw [List.length_map, hflen]
  · refine List.Nodup.map_on ?_ hfnd
    intro x hx y hy hxy
    exact getl_inj_of_nodup c hcnd x y (by rw [hclen]; exact hflt x hx)
      (by rw [hclen]; exact hflt y hy) hxy

theorem lf2e_table_facts : ∀ i', i' < 6 → (localFace2edge.getD i' []).length = 4
    ∧ ∀ j, j < 4 → getl (localFace2edge.getD i' []) j < 12 := by decide

/-- Every entry of a `face2edge` row is a valid canonical edge index. -/
theorem f2e_entry_lt (cells : List (List ℕ)) (fi j : ℕ)
    (hfi : fi < (buildFacesT cells).length) (hj : j < 4) :
    getl ((buildFace2edge cells).getD fi []) j < (buildEdges cells).length := by
  have htmem : (buildFacesT cells)[fi] ∈ buildFacesT cells := List.getElem_mem hfi
  have htf := faceTriples_spec cells _
    (mem_dedupG _ _ _ (by rw [← dedupTriples_eq_dedupG]; exact htmem))
  obtain ⟨hc, hi6, _⟩ := htf
  rw [buildFace2edge_row cells fi hfi]
  obtain ⟨hlen4, hlt12⟩ := lf2e_table_facts _ hi6
  rw [getl_map _ _ _ (by rw [hlen4]; omega)]
  rw [buildCell2edge_row cells _ hc]
  rw [getl_map_getD _ _ _ (by rw [cellEdges_length]; exact hlt12 j hj)]
  apply buildEdges_idx_lt
  apply List.mem_flatMap.mpr
  refine ⟨cells.getD ((buildFacesT cells)[fi]).2.1 [], ?_, ?_⟩
  · rw [getD_eq_getElem' _ _ _ hc]
    exact List.getElem_mem hc
  · apply getD_mem_of_lt'
    rw [cellEdges_length]
    exact hlt12 j hj

/-- Resolving the orientation test of `face_to_ipoint` for a two-point
row whose entries are a known unordered pair. -/
theorem orient_pair (er : List ℕ) (u v : ℕ) (huv : u ≠ v)
    (hcase : er = [u, v] ∨ er = [v, u]) :
    (if u = getl er 0 then [getl er 0, getl er 1]
      else [getl er 0, getl er 1].reverse) = [u, v] := by
  rcases hcase with rfl | rfl
  · rw [if_pos (show u = getl [u, v] 0 from rfl)]
    rfl
  · rw [if_neg (show ¬ u = getl [v, u] 0 from huv)]
    rfl

/-- At `p = 1` the sequence written for edge slot `i` of face `fi` is the
face's own directed vertex pair of that slot. -/
theorem faceRowEdgeSeq_p1 (node : List (List ℤ)) (cells : List (List ℕ))
    (hv : ValidInput node cells) (fi : ℕ)
    (hfi : fi < (buildFaces cells).length) (i : ℕ) (hi : i < 4) :
    faceRowEdgeSeq (buildMesh node cells) 1 fi i
      = [getl ((buildFaces cells).getD fi []) (getl (localEdgeF.getD i []) 0),
         getl ((buildFaces cells).getD fi []) (getl (localEdgeF.getD i []) 1)] := by
  have hfiT : fi < (buildFacesT cells).length := by
    rw [buildFacesT_length]; exact hfi
  obtain ⟨hlen4, hnd⟩ := buildFaces_row_props node cells hv fi hfi
  have hge : getl ((buildFace2edge cells).getD fi []) i
      < (buildEdges cells).length := f2e_entry_lt cells fi i hfiT hi
  set fv := (buildFaces cells).getD fi [] with hfv
  set ge := getl ((buildFace2edge cells).getD fi []) i with hgedef
  set er := (buildEdges cells).getD ge [] with herdef
  have hkey : sortKey er = sortKey [getl fv i, getl fv ((i + 1) % 4)] :=
    face_edge_key cells fi i hfiT hi
  have hrow : (edge_to_ipoint (buildMesh node cells) 1).getD ge []
      = [getl er 0, getl er 1] := by
    unfold edge_to_ipoint
    dsimp only
    rw [map_range_getD _ _ _
      (show ge < (buildMesh node cells).edge.length from hge)]
    rfl
  have hne : ∀ a b : ℕ, a < 4 → b < 4 → a ≠ b → getl fv a ≠ getl fv b := by
    intro a b ha hb hab
    exact getl_ne_of_nodup fv hnd a b (by rw [hlen4]; omega)
      (by rw [hlen4]; omega) hab
  unfold faceRowEdgeSeq
  dsimp only
  rw [buildMesh_face2edge, buildMesh_face, buildMesh_edge, ← hgedef, ← hfv,
    ← herdef, hrow]
  interval_cases i <;>
    first
    | exact orient_pair er _ _ (hne _ _ (by decide) (by decide) (by decide))
        (perm_pair_eq _ _ _ (perm_of_sortKey_eq _ _ hkey))
    | exact orient_pair er _ _ (hne _ _ (by decide) (by decide) (by decide))
        (perm_pair_eq _ _ _ (perm_of_sortKey_eq _ _ hkey)).symm

/-- At `p = 1` the stored point row of face `fi` is
`[fv0, fv3, fv1, fv2]` on the `2 x 2` grid (grid index `A*2+B`). -/
theorem face_row_p1 (node : List (List ℤ)) (cells : List (List ℕ))
    (hv : ValidInput node cells) (fi : ℕ)
    (hfi : fi < (buildFaces cells).length) :
    (face_to_ipoint (buildMesh node cells) 1).getD fi []
      = [getl ((buildFaces cells).getD fi []) 0,
         getl ((buildFaces cells).getD fi []) 3,
         getl ((buildFaces cells).getD fi []) 1,
         getl ((buildFaces cells).getD fi []) 2] := by
  have hs0 := faceRowEdgeSeq_p1 node cells hv fi hfi 0 (by omega)
  have hs1 := faceRowEdgeSeq_p1 node cells hv fi hfi 1 (by omega)
  have hs2 := faceRowEdgeSeq_p1 node cells hv fi hfi 2 (by omega)
  have hs3 := faceRowEdgeSeq_p1 node cells hv fi hfi 3 (by omega)
  unfold face_to_ipoint
  dsimp only
  rw [map_range_getD _ _ _
    (show fi < (buildMesh node cells).face.length from hfi)]
  show (writeSeq (faceRowAfterEdges (buildMesh node cells) 1 fi 4)
      (faceInterior 1) []).toList = _
  rw [writeSeq_nil_vals]
  have h4 : faceRowAfterEdges (buildMesh node cells) 1 fi 4
      = writeSeq (writeSeq (writeSeq (writeSeq (Array.mkArray 4 0)
          (faceDofidx 1 0) (faceRowEdgeSeq (buildMesh node cells) 1 fi 0))
          (faceDofidx 1 1) (faceRowEdgeSeq (buildMesh node cells) 1 fi 1))
          (faceDofidx 1 2) (faceRowEdgeSeq (buildMesh node cells) 1 fi 2))
          (faceDofidx 1 3) (faceRowEdgeSeq (buildMesh node cells) 1 fi 3) := rfl
  rw [h4, hs0, hs1, hs2, hs3]
  rfl

/-- The matched columns of a face slot cannot sit at opposite positions
of the reordered global edge list: the slot's first two edges share a
vertex while opposite positions carry vertex-disjoint face edges. -/
theorem parity_core (K : ℕ → List ℕ) (g0 g1 g2 g3 f0 f1 f2 f3 : ℕ)
    (hg0 : K g0 = sortKey [f0, f1]) (hg1 : K g1 = sortKey [f1, f2])
    (hg2 : K g2 = sortKey [f2, f3]) (hg3 : K g3 = sortKey [f3, f0])
    (hf01 : f0 ≠ f1) (hf02 : f0 ≠ f2) (hf03 : f0 ≠ f3)
    (hf12 : f1 ≠ f2) (hf13 : f1 ≠ f3) (hf23 : f2 ≠ f3)
    (x0 x1 cu cs cw : ℕ)
    (hcus : cu ≠ cs) (hcsw : cs ≠ cw) (hcuw : cu ≠ cw)
    (hx0 : K x0 = sortKey [cu, cs]) (hx1 : K x1 = sortKey [cs, cw])
    (k0 k1 : ℕ) (hk0 : k0 < 4) (hk1 : k1 < 4)
    (hgk0 : getl [g3, g0, g1, g2] k0 = x0)
    (hgk1 : getl [g3, g0, g1, g2] k1 = x1) :
    k0 % 2 ≠ k1 % 2 := by
  intro hpar
  interval_cases k0 <;> interval_cases k1 <;>
    first
    | omega
    | (simp only [getl, List.getD_cons_zero, List.getD_cons_succ] at hgk0 hgk1
       rw [← hgk0] at hx0
       rw [← hgk1] at hx1
       first | rw [hg0] at hx0 | rw [hg1] at hx0 | rw [hg2] at hx0 | rw [hg3] at hx0
       first | rw [hg0] at hx1 | rw [hg1] at hx1 | rw [hg2] at hx1 | rw [hg3] at hx1
       rcases sortKey_pair_cases _ _ _ _ hx0 with ⟨e1, e2⟩ | ⟨e1, e2⟩ <;> rcases sortKey_pair_cases _ _ _ _ hx1 with ⟨e3, e4⟩ | ⟨e3, e4⟩ <;> omega)

/-- Coverage of the `2 x 2` face grid by the matched columns of
`[a, b, 1-a, 1-b]` when the two column picks have opposite parity. -/
theorem p1_cols_cover (k0 k1 α β : ℕ) (hk0 : k0 < 4) (hk1 : k1 < 4)
    (hpar : k0 % 2 ≠ k1 % 2) (hα : α < 2) (hβ : β < 2) :
    ∃ q, q < 4 ∧ getl [q / 2, q % 2, 1 - q / 2, 1 - q % 2] k0 = α
      ∧ getl [q / 2, q % 2, 1 - q / 2, 1 - q % 2] k1 = β := by
  interval_cases k0 <;> interval_cases k1 <;> (try omega) <;>
    interval_cases α <;> interval_cases β <;>
    first
    | exact ⟨0, by decide⟩
    | exact ⟨1, by decide⟩
    | exact ⟨2, by decide⟩
    | exact ⟨3, by decide⟩

/-- Computing one `p = 1` face-slot value of `cell_to_ipoint` from the
matched columns. -/
theorem cellSlotVal_p1_eq (m : HexMesh) (ci i q : ℕ) (lfe : List ℕ)
    (hlfe : (reorder3012 (lf2eTab.getD i [])).map
        (getl (m.cell2edge.getD ci [])) = lfe)
    (hlfelen : lfe.length = 4) (k0 k1 : ℕ)
    (hk0 : getl (argsort (reorder3012
          (m.face2edge.getD (getl (m.cell2face.getD ci []) i) [])))
        (getl (argsort (argsort lfe)) 0) = k0)
    (hk1 : getl (argsort (reorder3012
          (m.face2edge.getD (getl (m.cell2face.getD ci []) i) [])))
        (getl (argsort (argsort lfe)) 1) = k1) :
    cellSlotVal m 1 ci i q
      = getl ((face_to_ipoint m 1).getD (getl (m.cell2face.getD ci []) i) [])
          (getl [q / 2, q % 2, 1 - q / 2, 1 - q % 2] k0 * 2
            + getl [q / 2, q % 2, 1 - q / 2, 1 - q % 2] k1) := by
  unfold cellSlotVal cellSlotIdx0
  dsimp only
  rw [hlfe]
  rw [getl_map (argsort (argsort lfe))
      (getl (argsort (reorder3012
        (m.face2edge.getD (getl (m.cell2face.getD ci []) i) [])))) 0
      (by rw [argsort_length, argsort_length, hlfelen]; omega)]
  rw [getl_map (argsort (argsort lfe))
      (getl (argsort (reorder3012
        (m.face2edge.getD (getl (m.cell2face.getD ci []) i) [])))) 1
      (by rw [argsort_length, argsort_length, hlfelen]; omega)]
  rw [hk0, hk1]

/-- At `p = 1`, face slots `4` and `5` of any cell of a valid mesh write
every vertex of the stored face they are glued to. -/
theorem p1_slot_covers (node : List (List ℤ)) (cells : List (List ℕ))
    (hv : ValidInput node cells) (ci : ℕ) (hci : ci < cells.length)
    (i : ℕ) (hi : i = 4 ∨ i = 5) (j : ℕ) (hj : j < 4) :
    ∃ q, q < 4 ∧ cellSlotVal (buildMesh node cells) 1 ci i q
      = getl ((buildFaces cells).getD
          (getl ((buildCell2face cells).getD ci []) i) []) j := by
  have hi6 : i < 6 := by rcases hi with rfl | rfl <;> omega
  set cc := cells.getD ci [] with hccdef
  have hccmem : cc ∈ cells := by rw [hccdef]; exact getD_mem_of_lt' _ _ _ hci
  have hcclen : cc.length = 8 := hv.cell_len cc hccmem
  have hccnd : cc.Nodup := hv.cell_nodup cc hccmem
  have hccne : ∀ a b : ℕ, a < 8 → b < 8 → a ≠ b → getl cc a ≠ getl cc b := by
    intro a b ha hb hab
    exact getl_ne_of_nodup cc hccnd a b (by rw [hcclen]; omega)
      (by rw [hcclen]; omega) hab
  have hgfeq : getl ((buildCell2face cells).getD ci []) i
      = indexByKey (buildFaces cells) ((cellFaces cc).getD i []) := by
    rw [buildCell2face_row cells ci hci, ← hccdef]
    rw [getl_map_getD _ _ _ (by rw [cellFaces_length]; omega)]
  set gf := getl ((buildCell2face cells).getD ci []) i with hgfdef
  have hcfmem : (cellFaces cc).getD i [] ∈ cells.flatMap cellFaces :=
    List.mem_flatMap.mpr ⟨cc, hccmem,
      getD_mem_of_lt' _ _ _ (by rw [cellFaces_length]; omega)⟩
  have hgflt : gf < (buildFaces cells).length := by
    rw [hgfeq]
    exact buildFaces_idx_lt cells _ hcfmem
  obtain ⟨hgfvlen, hgfvnd⟩ := buildFaces_row_props node cells hv gf hgflt
  set gfv := (buildFaces cells).getD gf [] with hgfvdef
  have hfvne : ∀ a b : ℕ, a < 4 → b < 4 → a ≠ b → getl gfv a ≠ getl gfv b := by
    intro a b ha hb hab
    exact getl_ne_of_nodup gfv hgfvnd a b (by rw [hgfvlen]; omega)
      (by rw [hgfvlen]; omega) hab
  have hw01 := hfvne 0 1 (by omega) (by omega) (by omega)
  have hw02 := hfvne 0 2 (by omega) (by omega) (by omega)
  have hw03 := hfvne 0 3 (by omega) (by omega) (by omega)
  have hw12 := hfvne 1 2 (by omega) (by omega) (by omega)
  have hw13 := hfvne 1 3 (by omega) (by omega) (by omega)
  have hw23 := hfvne 2 3 (by omega) (by omega) (by omega)
  have hfiT : gf < (buildFacesT cells).length := by
    rw [buildFacesT_length]; exact hgflt
  have hK0' : sortKey ((buildEdges cells).getD
        (getl ((buildFace2edge cells).getD gf []) 0) [])
      = sortKey [getl gfv 0, getl gfv 1] := face_edge_key cells gf 0 hfiT (by omega)
  have hK1' : sortKey ((buildEdges cells).getD
        (getl ((buildFace2edge cells).getD gf []) 1) [])
      = sortKey [getl gfv 1, getl gfv 2] := face_edge_key cells gf 1 hfiT (by omega)
  have hK2' : sortKey ((buildEdges cells).getD
        (getl ((buildFace2edge cells).getD gf []) 2) [])
      = sortKey [getl gfv 2, getl gfv 3] := face_edge_key cells gf 2 hfiT (by omega)
  have hK3' : sortKey ((buildEdges cells).getD
        (getl ((buildFace2edge cells).getD gf []) 3) [])
      = sortKey [getl gfv 3, getl gfv 0] := face_edge_key cells gf 3 hfiT (by omega)
  set fr := (buildFace2edge cells).getD gf [] with hfrdef
  have hgfend : (reorder3012 fr).Nodup := by
    show ([getl fr 3, getl fr 0, getl fr 1, getl fr 2] : List ℕ).Nodup
    apply nodup_four
    · exact key_pair_ne (fun n => sortKey ((buildEdges cells).getD n []))
        _ _ _ _ _ _ hK3' hK0' (by omega)
    · exact key_pair_ne (fun n => sortKey ((buildEdges cells).getD n []))
        _ _ _ _ _ _ hK3' hK1' (by omega)
    · exact key_pair_ne (fun n => sortKey ((buildEdges cells).getD n []))
        _ _ _ _ _ _ hK3' hK2' (by omega)
    · exact key_pair_ne (fun n => sortKey ((buildEdges cells).getD n []))
        _ _ _ _ _ _ hK0' hK1' (by omega)
    · exact key_pair_ne (fun n => sortKey ((buildEdges cells).getD n []))
        _ _ _ _ _ _ hK0' hK2' (by omega)
    · exact key_pair_ne (fun n => sortKey ((buildEdges cells).getD n []))
        _ _ _ _ _ _ hK1' hK2' (by omega)
  have hEkey : ∀ eloc, eloc < 12 →
      sortKey ((buildEdges cells).getD
          (getl ((buildCell2edge cells).getD ci []) eloc) [])
        = sortKey ((cellEdges cc).getD eloc []) := by
    intro eloc he
    rw [buildCell2edge_row cells ci hci, ← hccdef]
    rw [getl_map_getD _ _ _ (by rw [cellEdges_length]; omega)]
    apply buildEdges_key
    exact List.mem_flatMap.mpr ⟨cc, hccmem,
      getD_mem_of_lt' _ _ _ (by rw [cellEdges_length]; omega)⟩
  set c2e := (buildCell2edge cells).getD ci [] with hc2edef
  have hglen : (reorder3012 fr).length = 4 := rfl
  rcases hi with rfl | rfl
  · -- slot 4: local edges (reordered) [4, 0, 5, 8]
    have hperm : ((reorder3012 (lf2eTab.getD 4 [])).map (getl c2e)).Perm
        (reorder3012 fr) := hv.conforming ci hci 4 (by omega)
    have hx0key : sortKey ((buildEdges cells).getD (getl c2e 4) [])
        = sortKey [getl cc 0, getl cc 4] := hEkey 4 (by omega)
    have hx1key : sortKey ((buildEdges cells).getD (getl c2e 0) [])
        = sortKey [getl cc 0, getl cc 1] := hEkey 0 (by omega)
    have hx0mem : getl c2e 4 ∈ reorder3012 fr := hperm.mem_iff.mp
      (show getl c2e 4 ∈ [getl c2e 4, getl c2e 0, getl c2e 5, getl c2e 8]
        from List.mem_cons_self _ _)
    have hx1mem : getl c2e 0 ∈ reorder3012 fr := hperm.mem_iff.mp
      (show getl c2e 0 ∈ [getl c2e 4, getl c2e 0, getl c2e 5, getl c2e 8]
        by simp)
    have hi0 : List.indexOf (getl c2e 4) (reorder3012 fr)
        < (reorder3012 fr).length := List.indexOf_lt_length.mpr hx0mem
    have hi1 : List.indexOf (getl c2e 0) (reorder3012 fr)
        < (reorder3012 fr).length := List.indexOf_lt_length.mpr hx1mem
    have hgk0 : getl (reorder3012 fr)
        (List.indexOf (getl c2e 4) (reorder3012 fr)) = getl c2e 4 := by
      rw [getl, getD_eq_getElem _ _ hi0]
      exact List.getElem_indexOf hi0
    have hgk1 : getl (reorder3012 fr)
        (List.indexOf (getl c2e 0) (reorder3012 fr)) = getl c2e 0 := by
      rw [getl, getD_eq_getElem _ _ hi1]
      exact List.getElem_indexOf hi1
    have hpar : (List.indexOf (getl c2e 4) (reorder3012 fr)) % 2
        ≠ (List.indexOf (getl c2e 0) (reorder3012 fr)) % 2 :=
      parity_core (fun n => sortKey ((buildEdges cells).getD n []))
        (getl fr 0) (getl fr 1) (getl fr 2) (getl fr 3)
        (getl gfv 0) (getl gfv 1) (getl gfv 2) (getl gfv 3)
        hK0' hK1' hK2' hK3' hw01 hw02 hw03 hw12 hw13 hw23
        (getl c2e 4) (getl c2e 0) (getl cc 4) (getl cc 0) (getl cc 1)
        (hccne 4 0 (by omega) (by omega) (by omega))
        (hccne 0 1 (by omega) (by omega) (by omega))
        (hccne 4 1 (by omega) (by omega) (by omega))
        (hx0key.trans (sortKey_pair_comm _ _)) hx1key
        _ _ (by rw [hglen] at hi0; exact hi0) (by rw [hglen] at hi1; exact hi1)
        hgk0 hgk1
    have hM0 : getl (argsort (reorder3012 fr))
        (getl (argsort (argsort ((reorder3012 (lf2eTab.getD 4 [])).map
          (getl c2e)))) 0)
        = List.indexOf (getl c2e 4) (reorder3012 fr) :=
      argsort_matching (reorder3012 fr) ((reorder3012 (lf2eTab.getD 4 [])).map
        (getl c2e)) 4 rfl hperm hgfend 0 (by omega)
    have hM1 : getl (argsort (reorder3012 fr))
        (getl (argsort (argsort ((reorder3012 (lf2eTab.getD 4 [])).map
          (getl c2e)))) 1)
        = List.indexOf (getl c2e 0) (reorder3012 fr) :=
      argsort_matching (reorder3012 fr) ((reorder3012 (lf2eTab.getD 4 [])).map
        (getl c2e)) 4 rfl hperm hgfend 1 (by omega)
    have hk0lt : List.indexOf (getl c2e 4) (reorder3012 fr) < 4 := by
      rw [hglen] at hi0; exact hi0
    have hk1lt : List.indexOf (getl c2e 0) (reorder3012 fr) < 4 := by
      rw [hglen] at hi1; exact hi1
    interval_cases j
    · obtain ⟨q, hq4, hA, hB⟩ := p1_cols_cover _ _ 0 0 hk0lt hk1lt hpar
        (by omega) (by omega)
      refine ⟨q, hq4, ?_⟩
      rw [cellSlotVal_p1_eq (buildMesh node cells) ci 4 q _ rfl rfl _ _ hM0 hM1]
      rw [hA, hB, buildMesh_cell2face, ← hgfdef,
        face_row_p1 node cells hv gf hgflt]
      rfl
    · obtain ⟨q, hq4, hA, hB⟩ := p1_cols_cover _ _ 1 0 hk0lt hk1lt hpar
        (by omega) (by omega)
      refine ⟨q, hq4, ?_⟩
      rw [cellSlotVal_p1_eq (buildMesh node cells) ci 4 q _ rfl rfl _ _ hM0 hM1]
      rw [hA, hB, buildMesh_cell2face, ← hgfdef,
        face_row_p1 node cells hv gf hgflt]
      rfl
    · obtain ⟨q, hq4, hA, hB⟩ := p1_cols_cover _ _ 1 1 hk0lt hk1lt hpar
        (by omega) (by omega)
      refine ⟨q, hq4, ?_⟩
      rw [cellSlotVal_p1_eq (buildMesh node cells) ci 4 q _ rfl rfl _ _ hM0 hM1]
      rw [hA, hB, buildMesh_cell2face, ← hgfdef,
        face_row_p1 node cells hv gf hgflt]
      rfl
    · obtain ⟨q, hq4, hA, hB⟩ := p1_cols_cover _ _ 0 1 hk0lt hk1lt hpar
        (by omega) (by omega)
      refine ⟨q, hq4, ?_⟩
      rw [cellSlotVal_p1_eq (buildMesh node cells) ci 4 q _ rfl rfl _ _ hM0 hM1]
      rw [hA, hB, buildMesh_cell2face, ← hgfdef,
        face_row_p1 node cells hv gf hgflt]
      rfl
  · -- slot 5: local edges (reordered) [7, 2, 6, 10]
    have hperm : ((reorder3012 (lf2eTab.getD 5 [])).map (getl c2e)).Perm
        (reorder3012 fr) := hv.conforming ci hci 5 (by omega)
    have hx0key : sortKey ((buildEdges cells).getD (getl c2e 7) [])
        = sortKey [getl cc 3, getl cc 7] := hEkey 7 (by omega)
    have hx1key : sortKey ((buildEdges cells).getD (getl c2e 2) [])
        = sortKey [getl cc 2, getl cc 3] := hEkey 2 (by omega)
    have hx0mem : getl c2e 7 ∈ reorder3012 fr := hperm.mem_iff.mp
      (show getl c2e 7 ∈ [getl c2e 7, getl c2e 2, getl c2e 6, getl c2e 10]
        from List.mem_cons_self _ _)
    have hx1mem : getl c2e 2 ∈ reorder3012 fr := hperm.mem_iff.mp
      (show getl c2e 2 ∈ [getl c2e 7, getl c2e 2, getl c2e 6, getl c2e 10]
        by simp)
    have hi0 : List.indexOf (getl c2e 7) (reorder3012 fr)
        < (reorder3012 fr).length := List.indexOf_lt_length.mpr hx0mem
    have hi1 : List.indexOf (getl c2e 2) (reorder3012 fr)
        < (reorder3012 fr).length := List.indexOf_lt_length.mpr hx1mem
    have hgk0 : getl (reorder3012 fr)
        (List.indexOf (getl c2e 7) (reorder3012 fr)) = getl c2e 7 := by
      rw [getl, getD_eq_getElem _ _ hi0]
      exact List.getElem_indexOf hi0
    have hgk1 : getl (reorder3012 fr)
        (List.indexOf (getl c2e 2) (reorder3012 fr)) = getl c2e 2 := by
      rw [getl, getD_eq_getElem _ _ hi1]
      exact List.getElem_indexOf hi1
    have hpar : (List.indexOf (getl c2e 7) (reorder3012 fr)) % 2
        ≠ (List.indexOf (getl c2e 2) (reorder3012 fr)) % 2 :=
      parity_core (fun n => sortKey ((buildEdges cells).getD n []))
        (getl fr 0) (getl fr 1) (getl fr 2) (getl fr 3)
        (getl gfv 0) (getl gfv 1) (getl gfv 2) (getl gfv 3)
        hK0' hK1' hK2' hK3' hw01 hw02 hw03 hw12 hw13 hw23
        (getl c2e 7) (getl c2e 2) (getl cc 7) (getl cc 3) (getl cc 2)
        (hccne 7 3 (by omega) (by omega) (by omega))
        (hccne 3 2 (by omega) (by omega) (by omega))
        (hccne 7 2 (by omega) (by omega) (by omega))
        (hx0key.trans (sortKey_pair_comm _ _))
        (hx1key.trans (sortKey_pair_comm _ _))
        _ _ (by rw [hglen] at hi0; exact hi0) (by rw [hglen] at hi1; exact hi1)
        hgk0 hgk1
    have hM0 : getl (argsort (reorder3012 fr))
        (getl (argsort (argsort ((reorder3012 (lf2eTab.getD 5 [])).map
          (getl c2e)))) 0)
        = List.indexOf (getl c2e 7) (reorder3012 fr) :=
      argsort_matching (reorder3012 fr) ((reorder3012 (lf2eTab.getD 5 [])).map
        (getl c2e)) 4 rfl hperm hgfend 0 (by omega)
    have hM1 : getl (argsort (reorder3012 fr))
        (getl (argsort (argsort ((reorder3012 (lf2eTab.getD 5 [])).map
          (getl c2e)))) 1)
        = List.indexOf (getl c2e 2) (reorder3012 fr) :=
      argsort_matching (reorder3012 fr) ((reorder3012 (lf2eTab.getD 5 [])).map
        (getl c2e)) 4 rfl hperm hgfend 1 (by omega)
    have hk0lt : List.indexOf (getl c2e 7) (reorder3012 fr) < 4 := by
      rw [hglen] at hi0; exact hi0
    have hk1lt : List.indexOf (getl c2e 2) (reorder3012 fr) < 4 := by
      rw [hglen] at hi1; exact hi1
    interval_cases j
    · obtain ⟨q, hq4, hA, hB⟩ := p1_cols_cover _ _ 0 0 hk0lt hk1lt hpar
        (by omega) (by omega)
      refine ⟨q, hq4, ?_⟩
      rw [cellSlotVal_p1_eq (buildMesh node cells) ci 5 q _ rfl rfl _ _ hM0 hM1]
      rw [hA, hB, buildMesh_cell2face, ← hgfdef,
        face_row_p1 node cells hv gf hgflt]
      rfl
    · obtain ⟨q, hq4, hA, hB⟩ := p1_cols_cover _ _ 1 0 hk0lt hk1lt hpar
        (by omega) (by omega)
      refine ⟨q, hq4, ?_⟩
      rw [cellSlotVal_p1_eq (buildMesh node cells) ci 5 q _ rfl rfl _ _ hM0 hM1]
      rw [hA, hB, buildMesh_cell2face, ← hgfdef,
        face_row_p1 node cells hv gf hgflt]
      rfl
    · obtain ⟨q, hq4, hA, hB⟩ := p1_cols_cover _ _ 1 1 hk0lt hk1lt hpar
        (by omega) (by omega)
      refine ⟨q, hq4, ?_⟩
      rw [cellSlotVal_p1_eq (buildMesh node cells) ci 5 q _ rfl rfl _ _ hM0 hM1]
      rw [hA, hB, buildMesh_cell2face, ← hgfdef,
        face_row_p1 node cells hv gf hgflt]
      rfl
    · obtain ⟨q, hq4, hA, hB⟩ := p1_cols_cover _ _ 0 1 hk0lt hk1lt hpar
        (by omega) (by omega)
      refine ⟨q, hq4, ?_⟩
      rw [cellSlotVal_p1_eq (buildMesh node cells) ci 5 q _ rfl rfl _ _ hM0 hM1]
      rw [hA, hB, buildMesh_cell2face, ← hgfdef,
        face_row_p1 node cells hv gf hgflt]
      rfl

/-- At `p = 1` a cell row of `cell_to_ipoint` is just the state after
the six face-slot writes (no interior block). -/
theorem p1_cell_row (m : HexMesh) (ci : ℕ) (hci : ci < m.cell.length) :
    (cell_to_ipoint m 1).getD ci [] = (cellRowAfterFaces m 1 ci 6).toList := by
  unfold cell_to_ipoint
  dsimp only
  rw [map_range_getD _ _ _ hci]
  show (writeSeq (cellRowAfterFaces m 1 ci 6) (cellInterior 1) []).toList = _
  rw [writeSeq_nil_vals]

/-- Reading back the final `p = 1` cell-grid value at a position of face
slot `4` or `5`: slot `5` writes last and slot `4`'s positions are
disjoint from slot `5`'s. -/
theorem p1_cell_row_read (m : HexMesh) (ci i q : ℕ)
    (hi : i = 4 ∨ i = 5) (hq : q < 4) :
    ((cellRowAfterFaces m 1 ci 6).toList).getD (cellDofidxPos 1 i q) 0
      = cellSlotVal m 1 ci i q := by
  have h6 : cellRowAfterFaces m 1 ci 6
      = writeSeq (writeSeq (cellRowAfterFaces m 1 ci 4)
          ((List.range 4).map (cellDofidxPos 1 4))
          ((List.range 4).map (cellSlotVal m 1 ci 4)))
          ((List.range 4).map (cellDofidxPos 1 5))
          ((List.range 4).map (cellSlotVal m 1 ci 5)) := by
    rw [show (6 : ℕ) = 5 + 1 from rfl, cellRowAfterFaces_succ]
    rw [show (5 : ℕ) = 4 + 1 from rfl, cellRowAfterFaces_succ]
  have hlen4 : ((cellRowAfterFaces m 1 ci 4).toList).length = 8 := by
    rw [cellRowAfterFaces_toList_length]
  rw [h6, writeSeq_toList, writeSeq_toList]
  rcases hi with rfl | rfl
  · interval_cases q
    · rw [listWrite_getD_of_not_mem _ ((List.range 4).map (cellDofidxPos 1 5))
        ((List.range 4).map (cellSlotVal m 1 ci 5)) (cellDofidxPos 1 4 0)
        (by decide)]
      exact listWrite_getD_at _ _ _ 0 (by decide) (by decide) (by simp)
        (by rw [hlen4]; decide)
    · rw [listWrite_getD_of_not_mem _ ((List.range 4).map (cellDofidxPos 1 5))
        ((List.range 4).map (cellSlotVal m 1 ci 5)) (cellDofidxPos 1 4 1)
        (by decide)]
      exact listWrite_getD_at _ _ _ 1 (by decide) (by decide) (by simp)
        (by rw [hlen4]; decide)
    · rw [listWrite_getD_of_not_mem _ ((List.range 4).map (cellDofidxPos 1 5))
        ((List.range 4).map (cellSlotVal m 1 ci 5)) (cellDofidxPos 1 4 2)
        (by decide)]
      exact listWrite_getD_at _ _ _ 2 (by decide) (by decide) (by simp)
        (by rw [hlen4]; decide)
    · rw [listWrite_getD_of_not_mem _ ((List.range 4).map (cellDofidxPos 1 5))
        ((List.range 4).map (cellSlotVal m 1 ci 5)) (cellDofidxPos 1 4 3)
        (by decide)]
      exact listWrite_getD_at _ _ _ 3 (by decide) (by decide) (by simp)
        (by rw [hlen4]; decide)
  · interval_cases q
    · exact listWrite_getD_at _ _ _ 0 (by decide) (by decide) (by simp)
        (by rw [listWrite_length, hlen4]; decide)
    · exact listWrite_getD_at _ _ _ 1 (by decide) (by decide) (by simp)
        (by rw [listWrite_length, hlen4]; decide)
    · exact listWrite_getD_at _ _ _ 2 (by decide) (by decide) (by simp)
        (by rw [listWrite_length, hlen4]; decide)
    · exact listWrite_getD_at _ _ _ 3 (by decide) (by decide) (by simp)
        (by rw [listWrite_length, hlen4]; decide)

/-- At `p = 1` every node referenced by some cell appears in the
`cell_to_ipoint` table. -/
theorem p1_vertex_mem (node : List (List ℤ)) (cells : List (List ℕ))
    (hv : ValidInput node cells) (v : ℕ) (hvlt : v < node.length) :
    v ∈ (cell_to_ipoint (buildMesh node cells) 1).flatten := by
  obtain ⟨c, hc, hvc⟩ := hv.node_used v hvlt
  obtain ⟨ci, hcilen, hceq⟩ := List.mem_iff_getElem.mp hc
  have hci : ci < cells.length := hcilen
  have hcc : cells.getD ci [] = c := by
    rw [getD_eq_getElem' _ _ _ hci, hceq]
  obtain ⟨t, htlen, htv⟩ := List.mem_iff_getElem.mp hvc
  have hcclen : c.length = 8 := hv.cell_len c hc
  have ht8 : t < 8 := by rw [← hcclen]; exact htlen
  have hvt : getl (cells.getD ci []) t = v := by
    rw [hcc, getl, getD_eq_getElem _ _ htlen, htv]
  -- choose face slot 4 or 5 and the face-cycle position of vertex t
  have hslot : ∃ i j, (i = 4 ∨ i = 5) ∧ j < 4 ∧
      getl ((cellFaces (cells.getD ci [])).getD i []) j
        = getl (cells.getD ci []) t := by
    interval_cases t
    · exact ⟨4, 0, Or.inl rfl, by omega, rfl⟩
    · exact ⟨4, 1, Or.inl rfl, by omega, rfl⟩
    · exact ⟨5, 0, Or.inr rfl, by omega, rfl⟩
    · exact ⟨5, 1, Or.inr rfl, by omega, rfl⟩
    · exact ⟨4, 3, Or.inl rfl, by omega, rfl⟩
    · exact ⟨4, 2, Or.inl rfl, by omega, rfl⟩
    · exact ⟨5, 3, Or.inr rfl, by omega, rfl⟩
    · exact ⟨5, 2, Or.inr rfl, by omega, rfl⟩
  obtain ⟨i, j, hi, hj4, hcfj⟩ := hslot
  have hi6 : i < 6 := by rcases hi with rfl | rfl <;> omega
  -- the stored face is a permutation of the cell's face cycle
  have hgfeq : getl ((buildCell2face cells).getD ci []) i
      = indexByKey (buildFaces cells)
          ((cellFaces (cells.getD ci [])).getD i []) := by
    rw [buildCell2face_row cells ci hci]
    rw [getl_map_getD _ _ _ (by rw [cellFaces_length]; omega)]
  have hccmem : cells.getD ci [] ∈ cells := getD_mem_of_lt' _ _ _ hci
  have hcfmem : (cellFaces (cells.getD ci [])).getD i []
      ∈ cells.flatMap cellFaces :=
    List.mem_flatMap.mpr ⟨cells.getD ci [], hccmem,
      getD_mem_of_lt' _ _ _ (by rw [cellFaces_length]; omega)⟩
  have hgflt : getl ((buildCell2face cells).getD ci []) i
      < (buildFaces cells).length := by
    rw [hgfeq]
    exact buildFaces_idx_lt cells _ hcfmem
  obtain ⟨hgfvlen, _⟩ := buildFaces_row_props node cells hv _ hgflt
  have hgfvperm : ((buildFaces cells).getD
        (getl ((buildCell2face cells).getD ci []) i) []).Perm
      ((cellFaces (cells.getD ci [])).getD i []) := by
    apply perm_of_sortKey_eq
    rw [hgfeq]
    exact buildFaces_key cells _ hcfmem
  -- locate the target value inside the stored face row
  have hcflen : ((cellFaces (cells.getD ci [])).getD i []).length = 4 := by
    rw [← hgfvperm.length_eq, hgfvlen]
  have hcfjmem : getl ((cellFaces (cells.getD ci [])).getD i []) j
      ∈ (cellFaces (cells.getD ci [])).getD i [] :=
    getD_mem_of_lt _ _ (by rw [hcflen]; omega)
  have hvmemgfv : getl ((cellFaces (cells.getD ci [])).getD i []) j
      ∈ (buildFaces cells).getD
          (getl ((buildCell2face cells).getD ci []) i) [] :=
    hgfvperm.mem_iff.mpr hcfjmem
  obtain ⟨j', hj'len, hj'eq⟩ := List.mem_iff_getElem.mp hvmemgfv
  have hj'4 : j' < 4 := by rw [← hgfvlen]; exact hj'len
  have hgetlj' : getl ((buildFaces cells).getD
        (getl ((buildCell2face cells).getD ci []) i) []) j'
      = getl ((cellFaces (cells.getD ci [])).getD i []) j := by
    rw [getl, getD_eq_getElem _ _ hj'len, hj'eq]
  obtain ⟨q, hq4, hval⟩ := p1_slot_covers node cells hv ci hci i hi j' hj'4
  have hrow := p1_cell_row (buildMesh node cells) ci
    (show ci < (buildMesh node cells).cell.length from hci)
  have hread := p1_cell_row_read (buildMesh node cells) ci i q hi hq4
  have hvrow : ((cell_to_ipoint (buildMesh node cells) 1).getD ci []).getD
      (cellDofidxPos 1 i q) 0 = v := by
    rw [hrow, hread, hval, hgetlj', hcfj, hvt]
  have hposlt8 : cellDofidxPos 1 i q < 8 := by
    rcases hi with rfl | rfl <;> interval_cases q <;> decide
  have hrowlen : ((cell_to_ipoint (buildMesh node cells) 1).getD ci []).length
      = 8 := by
    rw [hrow, cellRowAfterFaces_toList_length]
  have hvmem : v ∈ (cell_to_ipoint (buildMesh node cells) 1).getD ci [] := by
    rw [← hvrow]
    exact getD_mem_of_lt _ _ (by rw [hrowlen]; exact hposlt8)
  have hctlen : (cell_to_ipoint (buildMesh node cells) 1).length
      = cells.length := by
    unfold cell_to_ipoint
    dsimp only
    rw [List.length_map, List.length_range]
    rfl
  have hrowmem : (cell_to_ipoint (buildMesh node cells) 1).getD ci []
      ∈ cell_to_ipoint (buildMesh node cells) 1 :=
    getD_mem_of_lt' _ _ _ (by rw [hctlen]; exact hci)
  exact List.mem_flatten.mpr ⟨_, hrowmem, hvmem⟩

/-! ### The settled claims: concrete divergences -/

/-- Claim C2: for every valid mesh input and every order `p >= 1`, the
global interpolation-point indices are assigned in contiguous tiers with
the spec offsets (`edgeBase = NN`, `faceBase = NN + NE*(p-1)`,
`cellBase = faceBase + NF*(p-1)^2`): `number_of_global_ipoints` equals
the total `cellBase + NC*(p-1)^3`, every index appearing in
`cell_to_ipoint` lies in `[0, total)`, and the maximum index plus one
equals the total. -/
theorem global_ipoint_tiers (node : List (List ℤ)) (cells : List (List ℕ))
    (hv : ValidInput node cells) (p : ℕ) (hp : 1 ≤ p) :
    number_of_global_ipoints (buildMesh node cells) (p : ℤ)
        = (totalIpoints (buildMesh node cells) p : ℤ)
      ∧ (∀ v ∈ (cell_to_ipoint (buildMesh node cells) p).flatten,
          v < totalIpoints (buildMesh node cells) p)
      ∧ ((cell_to_ipoint (buildMesh node cells) p).flatten.foldr max 0) + 1
          = totalIpoints (buildMesh node cells) p := by
  have hNN : 0 < (buildMesh node cells).node.length :=
    List.length_pos.mpr hv.node_ne
  have hNN' : 0 < node.length := hNN
  have hedge : ∀ r ∈ (buildMesh node cells).edge, ∀ v ∈ r,
      v < (buildMesh node cells).node.length :=
    buildEdges_entries_lt node cells hv
  have hbound := cell_to_ipoint_mem_lt (buildMesh node cells) p hedge hNN
  have htotpos : 0 < totalIpoints (buildMesh node cells) p := by
    unfold totalIpoints cellBase faceBase edgeBase
    omega
  refine ⟨?_, hbound, ?_⟩
  · unfold number_of_global_ipoints totalIpoints cellBase faceBase edgeBase
    push_cast [Nat.cast_sub hp]
    ring
  · have hmaxlt :
        ((cell_to_ipoint (buildMesh node cells) p).flatten.foldr max 0)
          < totalIpoints (buildMesh node cells) p :=
      foldr_max_lt _ _ htotpos hbound
    rcases Nat.lt_or_ge p 2 with hp2 | hp2
    · have hp1 : p = 1 := by omega
      subst hp1
      have htot1 : totalIpoints (buildMesh node cells) 1 = node.length := by
        unfold totalIpoints cellBase faceBase edgeBase
        simp [buildMesh_node]
      have hvm := p1_vertex_mem node cells hv (node.length - 1) (by omega)
      have hle := le_foldr_max _ _ hvm
      rw [htot1] at hmaxlt ⊢
      omega
    · have htop := cell_to_ipoint_top_mem (buildMesh node cells) p hp2
        (List.length_pos.mpr hv.cells_ne)
      have hle := le_foldr_max _ _ htop
      omega

/-- Witness for C2 on the single-hexahedron mesh at `p = 2`. -/
theorem global_ipoint_tiers_witness :
    (1 : ℕ) ≤ 2
      ∧ (number_of_global_ipoints (buildMesh oneHexNode oneHexCell) ((2 : ℕ) : ℤ)
            = (totalIpoints (buildMesh oneHexNode oneHexCell) 2 : ℤ)
          ∧ (∀ v ∈ (cell_to_ipoint (buildMesh oneHexNode oneHexCell) 2).flatten,
              v < totalIpoints (buildMesh oneHexNode oneHexCell) 2)
          ∧ ((cell_to_ipoint (buildMesh oneHexNode oneHexCell) 2).flatten.foldr
                max 0) + 1
              = totalIpoints (buildMesh oneHexNode oneHexCell) 2) :=
  ⟨by decide, global_ipoint_tiers oneHexNode oneHexCell
    ⟨by decide, by decide, by decide, by decide, by decide, by decide,
      by decide⟩ 2 (by decide)⟩

/-- Claim C10: the node table of `from_one_hexahedron` duplicates
coordinates — node 3 repeats node 0 (the origin) and node 7 repeats
node 4 — so the cell's edges `(0,3)` and `(4,7)` have zero length and the
vertex `(0,1,0)` of the unit cube is absent, even though the 8 node
indices of the single cell are distinct. -/
theorem from_one_hexahedron_degenerate :
    oneHexNode.getD 3 [] = oneHexNode.getD 0 [] ∧
    oneHexNode.getD 3 [] = [0, 0, 0] ∧
    oneHexNode.getD 7 [] = oneHexNode.getD 4 [] ∧
    oneHexNode.getD 7 [] = [0, 0, 1] ∧
    (oneHexCell.getD 0 []).Nodup ∧
    nodeOf oneHexMesh 0 0 = nodeOf oneHexMesh 0 3 ∧
    nodeOf oneHexMesh 0 4 = nodeOf oneHexMesh 0 7 ∧
    (∀ x ∈ oneHexNode, x ≠ [0, 1, 0]) := by
  refine ⟨rfl, rfl, rfl, rfl, by decide, rfl, rfl, by decide⟩

/-- Claim C5 (code bug): on the `from_one_hexahedron` mesh the callable
`cell_volume` attribute is the later no-op stub, which returns `None`
instead of `1.0` (and likewise `face_area`); the shadowed quadrature-based
implementation would not return either, since its `jacobi_matrix` call
dies inside `grad_shape_function`. -/
theorem cell_volume_returns_none_on_factory_mesh :
    cell_volume oneHexMesh = none ∧
    face_area oneHexMesh = none ∧
    cell_volume_quadrature oneHexMesh.cell.length = .error einsumMismatch := by
  exact ⟨rfl, rfl, rfl⟩

/-- Claim C7 (counterexample): with `p = 0` the numbering is not rejected:
`number_of_global_ipoints` happily returns the count
`NN - NE + NF - NC = 8 - 12 + 6 - 1 = 1` on the single-hexahedron mesh
instead of raising any error. -/
theorem p_zero_returns_count :
    number_of_global_ipoints oneHexMesh 0 = 1 := by decide

/-- Claim C7 (amended): requesting the numbering with `p = 0` is not
validated; for every mesh `number_of_global_ipoints` returns the
(meaningless) value `NN - NE + NF - NC`. -/
theorem number_of_global_ipoints_at_zero (m : HexMesh) :
    number_of_global_ipoints m 0 =
      (m.node.length : ℤ) + m.face.length - m.edge.length - m.cell.length := by
  unfold number_of_global_ipoints
  ring

/-- Claim C1 (code bug): on the two-cube mesh whose upper cell is labeled
a quarter turn around the shared face, at order `p = 3` the two adjacent
cells compute different global indices (56 from below, 59 from above) for
the same physical point of the shared face — grid position 23 of cell 0
(multi-index `(1,1,3)`) and grid position 24 of cell 1 (multi-index
`(1,2,0)`) both sit at the scaled physical location `(9,9,27)/27`, i.e.
`(1/3, 1/3, 1)`. -/
theorem shared_face_index_disagreement :
    physOfPos (twoCellsTwisted 1) 0 3 23 = physOfPos (twoCellsTwisted 1) 1 3 24 ∧
    getl ((cell_to_ipoint (twoCellsTwisted 1) 3).getD 0 []) 23 = 56 ∧
    getl ((cell_to_ipoint (twoCellsTwisted 1) 3).getD 1 []) 24 = 59 := by
  refine ⟨by decide, by decide, by decide⟩

/-- Claim C3 (code bug): on the side-by-side mesh with a quarter-turn
labeling across the shared face, the `p = 1` table of cell 0 does equal
the fixed reordering `cell[:, [0,4,3,7,1,5,2,6]]` of its node row — which
pins the only possible fixed reordering — but the table row of cell 1
does not equal that reordering of its own node row, so `cell_to_ipoint(1)`
is not the cell-to-node table up to a fixed local reordering.  (The node
tier itself is intact: `number_of_global_ipoints` at `p = 1` is `NN`.) -/
theorem p1_collapse_fails_on_twisted_mesh :
    (cell_to_ipoint sideTwist 1).getD 0 [] =
      [0, 4, 3, 7, 1, 5, 2, 6].map (getl (sideTwist.cell.getD 0 [])) ∧
    (cell_to_ipoint sideTwist 1).getD 1 [] = [6, 7, 8, 9, 2, 3, 11, 10] ∧
    [0, 4, 3, 7, 1, 5, 2, 6].map (getl (sideTwist.cell.getD 1 [])) =
      [3, 2, 8, 9, 7, 6, 11, 10] ∧
    (cell_to_ipoint sideTwist 1).getD 1 [] ≠
      [0, 4, 3, 7, 1, 5, 2, 6].map (getl (sideTwist.cell.getD 1 [])) ∧
    number_of_global_ipoints sideTwist 1 = (sideTwist.node.length : ℤ) := by
  refine ⟨by decide, by decide, by decide, by decide, by decide⟩

/-- Claim C8 (counterexample): the two numbering code paths are not
duplicates — already on the single-cube `from_box` mesh at `p = 1` the
tables of `cell_to_ipoint` and `cell_to_ipoint0` differ. -/
theorem cell_to_ipoint_versions_differ :
    cell_to_ipoint (fromBoxInt 1 1 1) 1 ≠ cell_to_ipoint0 (fromBoxInt 1 1 1) 1 := by
  decide

/-- Claim C8 (amended): the two versions are distinct code paths that do
not compute the same table; what they do share is the cell-interior tier:
for every mesh, order, cell `c` and interior slot `j`, both write the
same fresh contiguous block value `cellBase + c*(p-1)^3 + j` at the same
grid position. -/
theorem cell_to_ipoint_versions_interior_agree (m : HexMesh) (p c j : ℕ)
    (hc : c < m.cell.length) (hj : j < (p - 1) * (p - 1) * (p - 1)) :
    ((cell_to_ipoint m p).getD c []).getD ((cellInterior p).getD j 0) 0
      = m.node.length + m.edge.length * (p - 1)
        + m.face.length * ((p - 1) * (p - 1))
        + c * ((p - 1) * (p - 1) * (p - 1)) + j ∧
    ((cell_to_ipoint0 m p).getD c []).getD ((cellInterior p).getD j 0) 0
      = m.node.length + m.edge.length * (p - 1)
        + m.face.length * ((p - 1) * (p - 1))
        + c * ((p - 1) * (p - 1) * (p - 1)) + j := by
  have hjpos : j < (cellInterior p).length := by
    rw [cellInterior_length]; exact hj
  have hjv : j < ((List.range ((p - 1) * (p - 1) * (p - 1))).map
      (fun t => m.node.length + m.edge.length * (p - 1)
        + m.face.length * ((p - 1) * (p - 1))
        + c * ((p - 1) * (p - 1) * (p - 1)) + t)).length := by
    simpa using hj
  have hmem : (cellInterior p).getD j 0 ∈ cellInterior p := by
    rw [getD_eq_getElem _ _ hjpos]
    exact List.getElem_mem hjpos
  have hlt := cellInterior_mem_lt p _ hmem
  constructor
  · show ((cell_to_ipoint m p).getD c []).getD ((cellInterior p).getD j 0) 0 = _
    unfold cell_to_ipoint
    rw [map_range_getD _ _ _ hc, writeSeq_toList,
      listWrite_getD_at _ _ _ j (cellInterior_nodup p) hjpos hjv
        (by rw [cellRowAfterFaces_toList_length]; exact hlt),
      map_range_getDN _ _ _ hj]
  · show ((cell_to_ipoint0 m p).getD c []).getD ((cellInterior p).getD j 0) 0 = _
    unfold cell_to_ipoint0
    rw [map_range_getD _ _ _ hc, writeSeq_toList,
      listWrite_getD_at _ _ _ j (cellInterior_nodup p) hjpos hjv
        (by rw [cellRowAfterFaces0_toList_length]; exact hlt),
      map_range_getDN _ _ _ hj]

/-- Witness for the amended C8 on the single-cube mesh, `p = 2`, the only
interior point. -/
theorem cell_to_ipoint_versions_interior_agree_witness :
    ((cell_to_ipoint (fromBoxInt 1 1 1) 2).getD 0 []).getD
        ((cellInterior 2).getD 0 0) 0
      = (fromBoxInt 1 1 1).node.length + (fromBoxInt 1 1 1).edge.length * (2 - 1)
        + (fromBoxInt 1 1 1).face.length * ((2 - 1) * (2 - 1))
        + 0 * ((2 - 1) * (2 - 1) * (2 - 1)) + 0 ∧
    ((cell_to_ipoint0 (fromBoxInt 1 1 1) 2).getD 0 []).getD
        ((cellInterior 2).getD 0 0) 0
      = (fromBoxInt 1 1 1).node.length + (fromBoxInt 1 1 1).edge.length * (2 - 1)
        + (fromBoxInt 1 1 1).face.length * ((2 - 1) * (2 - 1))
        + 0 * ((2 - 1) * (2 - 1) * (2 - 1)) + 0 :=
  cell_to_ipoint_versions_interior_agree (fromBoxInt 1 1 1) 2 0 0
    (by decide) (by decide)

/-- Claim C9: for both batched reference-coordinate forms (`bc` a 2-tuple
or a 3-tuple), `grad_shape_function` raises a `ValueError` before
returning — it overwrites `gphi` with a rank-3 zero array and feeds it to
an einsum under a rank-2 subscript — and consequently `jacobi_matrix` and
the quadrature-based `cell_volume` and `face_area` never return a
value. -/
theorem grad_shape_function_always_raises (TD NQ p NEnt NC NF : ℕ)
    (v : String) (h : TD = 2 ∨ TD = 3) :
    grad_shape_function TD NQ p v = .error einsumMismatch ∧
    jacobi_matrix TD NQ NEnt = .error einsumMismatch ∧
    cell_volume_quadrature NC = .error einsumMismatch ∧
    face_area_quadrature NF = .error einsumMismatch := by
  rcases h with h | h <;> subst h <;> exact ⟨rfl, rfl, rfl, rfl⟩

/-- Witness for C9 at the concrete call made by `jacobi_matrix` from the
order-2 quadrature (`TD = 3`, two points per axis, `p = 1`). -/
theorem grad_shape_function_always_raises_witness :
    grad_shape_function 3 2 1 "u" = .error einsumMismatch ∧
    jacobi_matrix 3 2 1 = .error einsumMismatch ∧
    cell_volume_quadrature 1 = .error einsumMismatch ∧
    face_area_quadrature 6 = .error einsumMismatch :=
  grad_shape_function_always_raises 3 2 1 1 1 6 "u" (Or.inr rfl)

/-- Claim C6: the (spec-modelled) validating constructor fails atomically:
a duplicate node index inside a cell yields `ValidationError`, a face key
claimed by more than two cells yields `TopologyError`, and in both cases
no mesh value is produced. -/
theorem mesh_construction_fails_atomically
    (node1 node2 : List (List ℤ)) (cells1 cells2 : List (List ℕ))
    (h1 : ∃ c ∈ cells1, ¬ c.Nodup)
    (h2 : ∀ c ∈ cells2, c.Nodup)
    (h3 : ∃ f ∈ cells2.flatMap cellFaces,
      2 < (cells2.flatMap cellFaces).countP (fun g => decide (sortKey g = sortKey f))) :
    buildMeshChecked node1 cells1 = .error .ValidationError ∧
    buildMeshChecked node2 cells2 = .error .TopologyError ∧
    (∀ m, buildMeshChecked node1 cells1 ≠ .ok m) ∧
    (∀ m, buildMeshChecked node2 cells2 ≠ .ok m) := by
  obtain ⟨c, hc, hcnd⟩ := h1
  obtain ⟨f, hf, hfc⟩ := h3
  have e1 : buildMeshChecked node1 cells1 = .error .ValidationError := by
    unfold buildMeshChecked
    rw [if_pos]
    exact List.any_eq_true.mpr ⟨c, hc, by simpa using hcnd⟩
  have e2 : buildMeshChecked node2 cells2 = .error .TopologyError := by
    unfold buildMeshChecked
    rw [if_neg, if_pos]
    · exact List.any_eq_true.mpr ⟨f, hf, by simpa using hfc⟩
    · intro hany
      obtain ⟨c', hc', hnd'⟩ := List.any_eq_true.mp hany
      exact (by simpa using hnd' : ¬ c'.Nodup) (h2 c' hc')
  refine ⟨e1, e2, ?_, ?_⟩
  · intro m h
    rw [e1] at h
    exact Except.noConfusion h
  · intro m h
    rw [e2] at h
    exact Except.noConfusion h

/-- Witness for C6: a cell repeating node 0, and three cells sharing the
bottom face `{0,1,2,3}`. -/
theorem mesh_construction_fails_atomically_witness :
    buildMeshChecked [] [[0, 0, 2, 3, 4, 5, 6, 7]] = .error .ValidationError ∧
    buildMeshChecked []
      [[0, 1, 2, 3, 4, 5, 6, 7], [0, 1, 2, 3, 8, 9, 10, 11],
       [0, 1, 2, 3, 12, 13, 14, 15]] = .error .TopologyError ∧
    (∀ m, buildMeshChecked [] [[0, 0, 2, 3, 4, 5, 6, 7]] ≠ .ok m) ∧
    (∀ m, buildMeshChecked []
      [[0, 1, 2, 3, 4, 5, 6, 7], [0, 1, 2, 3, 8, 9, 10, 11],
       [0, 1, 2, 3, 12, 13, 14, 15]] ≠ .ok m) :=
  mesh_construction_fails_atomically [] [] [[0, 0, 2, 3, 4, 5, 6, 7]]
    [[0, 1, 2, 3, 4, 5, 6, 7], [0, 1, 2, 3, 8, 9, 10, 11],
     [0, 1, 2, 3, 12, 13, 14, 15]]
    (by decide) (by decide) (by decide)

end Hex
